import Mathlib

/-!
A verification development for the `legistar-monitor` repository, centred on the
event reconciliation engine in `src/check_new_hearings.py`.

Modelling conventions (shallow embedding of the Python source):
* Run timestamps (ISO strings in the source) are modelled as natural numbers
  counting minutes on the proleptic Gregorian calendar from 0001-01-01
  (so `datetime.min` is `0`); comparisons of ISO strings produced by
  `datetime.isoformat` agree with comparisons of these numbers.
* Event dates/times are the strings of the source; `get_event_datetime`
  reimplements the two `strptime` formats used there (`%Y-%m-%d` and
  `%I:%M %p`, including CPython's digit-count and range constraints).
* Python `dict` state (`seen_events.json`) is an insertion-ordered association
  list from the event-id key (`str(EventId)`, modelled as `Nat`) to an entry.
* A Python `KeyError` (subscript access on a missing key, notably
  `current_event_obj['EventId']`) is modelled with `Except String`.
* The `SyntheticMeetingTopic` enrichment of new events calls the network API
  and touches no field compared by `check_significant_event_data_change`;
  it is omitted from the model.
-/

namespace Legistar

/-! ## Character-list string utilities (models of `str.split`, `str.strip`) -/

/-- Accumulator for `splitChar`; models Python `str.split(sep)` on a single
character separator. -/
def splitCharAux (sep : Char) : List Char → List Char → List (List Char)
  | [], acc => [acc.reverse]
  | c :: cs, acc =>
    if c = sep then acc.reverse :: splitCharAux sep cs []
    else splitCharAux sep cs (c :: acc)

/-- Split a character list on a separator character, like Python `s.split(sep)`. -/
def splitChar (sep : Char) (l : List Char) : List (List Char) :=
  splitCharAux sep l []

/-- Drop leading whitespace characters. -/
def dropWhileSpace : List Char → List Char
  | [] => []
  | c :: cs => if c.isWhitespace then dropWhileSpace cs else c :: cs

/-- Trim whitespace on both ends, modelling Python `str.strip()`. -/
def trimChars (l : List Char) : List Char :=
  (dropWhileSpace (dropWhileSpace l).reverse).reverse

/-- Numeric value of a decimal digit character, `none` for non-digits. -/
def digitVal (c : Char) : Option Nat :=
  if '0' ≤ c ∧ c ≤ '9' then some (c.toNat - '0'.toNat) else none

/-- Parse a non-empty all-digit character list as a natural number. -/
def parseNatAux : List Char → Nat → Option Nat
  | [], acc => some acc
  | c :: cs, acc =>
    match digitVal c with
    | some d => parseNatAux cs (acc * 10 + d)
    | none => none

/-- Parse a decimal natural number; fails on the empty list or non-digits. -/
def parseNatChars (l : List Char) : Option Nat :=
  if l.isEmpty then none else parseNatAux l 0

/-! ## Calendar arithmetic (model of the `datetime` values compared by the code) -/

/-- Gregorian leap-year test. -/
def isLeap (y : Nat) : Bool :=
  (y % 4 == 0 && y % 100 != 0) || y % 400 == 0

/-- Length of month `m` in year `y` (months numbered from 1). -/
def daysInMonth (y m : Nat) : Nat :=
  if m = 2 then (if isLeap y then 29 else 28)
  else if m = 4 ∨ m = 6 ∨ m = 9 ∨ m = 11 then 30
  else 31

/-- Days in year `y` strictly before month `m`. -/
def daysBeforeMonth (y m : Nat) : Nat :=
  (List.range (m - 1)).foldl (fun a i => a + daysInMonth y (i + 1)) 0

/-- Day number of `y-m-d` counted from 0001-01-01 (day 0), proleptic Gregorian;
the model of `datetime.date.toordinal() - 1`. -/
def daysFromCivil (y m d : Nat) : Nat :=
  365 * (y - 1) + (y - 1) / 4 - (y - 1) / 100 + (y - 1) / 400 + daysBeforeMonth y m + (d - 1)

/-- Minutes per day; run timestamps and event datetimes are counted in minutes. -/
def minutesPerDay : Nat := 1440

/-- Model of `datetime.max` as a sort key: strictly larger than every
datetime the parser can produce (years are capped at four digits). -/
def datetimeMax : Nat := 10000000000

/-- Minute count of the Unix epoch 1970-01-01, the fallback alert timestamp
used for the `new_hearing_tag` check. -/
def epoch1970 : Nat := daysFromCivil 1970 1 1 * minutesPerDay

/-- Parse `%Y-%m-%d` into a day number, modelling CPython `strptime`:
exactly four year digits, one or two month/day digits, and the calendar
validation performed by the `datetime` constructor. -/
def parseDateStr (l : List Char) : Option Nat :=
  match splitChar '-' l with
  | [ys, ms, ds] => do
    let y ← parseNatChars ys
    let m ← parseNatChars ms
    let d ← parseNatChars ds
    if ys.length = 4 ∧ ms.length ≤ 2 ∧ ds.length ≤ 2 ∧
        1 ≤ y ∧ 1 ≤ m ∧ m ≤ 12 ∧ 1 ≤ d ∧ d ≤ daysInMonth y m then
      some (daysFromCivil y m d)
    else none
  | _ => none

/-- Convert a 12-hour clock hour and an AM/PM marker to a 24-hour hour. -/
def hour24 (h : Nat) (ap : List Char) : Option Nat :=
  if ap = ['A', 'M'] then some (if h = 12 then 0 else h)
  else if ap = ['P', 'M'] then some (if h = 12 then 12 else h + 12)
  else none

/-- Parse `%I:%M %p` into minutes after midnight, modelling CPython `strptime`. -/
def parseTimeStr (l : List Char) : Option Nat :=
  match splitChar ' ' l with
  | [hm, ap] =>
    match splitChar ':' hm with
    | [hs, ms] => do
      let h ← parseNatChars hs
      let m ← parseNatChars ms
      if hs.length ≤ 2 ∧ ms.length ≤ 2 ∧ 1 ≤ h ∧ h ≤ 12 ∧ m ≤ 59 then
        let h' ← hour24 h ap
        some (h' * 60 + m)
      else none
    | _ => none
  | _ => none

/-! ## Data model -/

/-- The raw event record fields used by `check_new_hearings.py`.
`eventId` is optional because the source reads it with a subscript
(`current_event_obj['EventId']`), which raises `KeyError` when absent. -/
structure EventData where
  eventId : Option Nat
  eventBodyName : Option String
  eventDate : Option String
  eventTime : Option String
  eventLocation : Option String
  eventAgendaStatusName : Option String
  eventComment : Option String
deriving DecidableEq, Repr

/-- Truthiness of an optional string in Python (`None` and `""` are falsy). -/
def optStrTruthy (o : Option String) : Bool :=
  match o with
  | none => false
  | some s => !(s == "")

/-- Model of `get_event_datetime`: parse `EventDate`/`EventTime` into minutes,
with the source's fallbacks (date-only when the time is absent or unparseable,
`None` when the date is absent or unparseable). -/
def get_event_datetime (e : EventData) : Option Nat :=
  if !optStrTruthy e.eventDate then none
  else
    let dpart := (splitChar 'T' (e.eventDate.getD "").toList).headD []
    if !optStrTruthy e.eventTime then
      (parseDateStr dpart).map (· * minutesPerDay)
    else
      match parseDateStr dpart, parseTimeStr (e.eventTime.getD "").toList with
      | some d, some t => some (d * minutesPerDay + t)
      | some d, none => some (d * minutesPerDay)
      | none, _ => none

/-- Model of `check_significant_event_data_change`: any difference on the six
compared fields. -/
def check_significant_event_data_change (cur stored : EventData) : Bool :=
  cur.eventDate != stored.eventDate ||
  cur.eventTime != stored.eventTime ||
  cur.eventLocation != stored.eventLocation ||
  cur.eventBodyName != stored.eventBodyName ||
  cur.eventAgendaStatusName != stored.eventAgendaStatusName ||
  cur.eventComment != stored.eventComment

/-- Source test `event.get("EventAgendaStatusName") == "Deferred"`. -/
def is_deferred_api (e : EventData) : Bool :=
  e.eventAgendaStatusName == some "Deferred"

/-- The `rescheduled_event_details_if_deferred` record set on a matched
deferred original. -/
structure MatchInfo where
  matched_event_id : Nat
  new_date : Option String
  new_time : Option String
  new_location : Option String
  match_timestamp : Nat
deriving DecidableEq, Repr

/-- The `original_event_details_if_rescheduled` record set on a reschedule
target. -/
structure OriginalInfo where
  original_event_id : Nat
  original_date : Option String
  original_time : Option String
  original_status_when_deferred : String
  match_timestamp : Nat
deriving DecidableEq, Repr

/-- One tracked event: the per-identity value of `seen_events.json`.
`last_alert_timestamp` is optional because legacy entries may lack it and the
source guards for that; an absent `last_alert_type` is modelled as `""`
(both are falsy in the source's checks). -/
structure SeenEntry where
  event_data : EventData
  first_seen_timestamp : Nat
  last_seen_timestamp : Nat
  last_processed_timestamp : Nat
  last_significant_change_timestamp : Nat
  current_status : String
  original_event_details_if_rescheduled : Option OriginalInfo
  rescheduled_event_details_if_deferred : Option MatchInfo
  processing_tags : List String
  last_alert_type : String
  last_alert_timestamp : Option Nat
deriving DecidableEq, Repr

/-- The persisted state: an insertion-ordered association list keyed by event id. -/
abbrev DB := List (Nat × SeenEntry)

/-- Lookup by key (first binding wins), modelling
`seen_events_db[event_id]` / `in` tests. -/
def dbFind : DB → Nat → Option SeenEntry
  | [], _ => none
  | p :: rest, k => if p.1 == k then some p.2 else dbFind rest k

/-- In-place update of the entry at a key (reference mutation in the source). -/
def dbModify (db : DB) (k : Nat) (f : SeenEntry → SeenEntry) : DB :=
  db.map (fun p => (p.1, if p.1 == k then f p.2 else p.2))

/-- Replace the entry at a key. -/
def dbSet (db : DB) (k : Nat) (v : SeenEntry) : DB :=
  dbModify db k (fun _ => v)

/-- Model of `initialize_seen_event_entry` (the source's name carries a token
this file avoids): the fresh tracked entry for a first sighting. -/
def init_seen_event_entry (e : EventData) (now : Nat) : SeenEntry :=
  { event_data := e
    first_seen_timestamp := now
    last_seen_timestamp := now
    last_processed_timestamp := now
    last_significant_change_timestamp := now
    current_status := "active"
    original_event_details_if_rescheduled := none
    rescheduled_event_details_if_deferred := none
    processing_tags := []
    last_alert_type := "new"
    last_alert_timestamp := some now }

/-- Source test `previous_status.startswith("deferred_")`. -/
def statusIsDeferred (s : String) : Bool :=
  String.isPrefixOf "deferred_" s

/-! ## Pass 1: per-record reconciliation -/

/-- The update applied to an already-known entry (the `else` branch of Pass 1).
Returns the updated entry and whether the entry newly became deferred
(`status_changed_to_deferred_this_run` plus the no-significant-change
deferral case). -/
def updateExistingEntry (now : Nat) (e : EventData) (entry0 : SeenEntry) :
    SeenEntry × Bool :=
  let entry1 := { entry0 with last_seen_timestamp := now, processing_tags := ([] : List String) }
  let sig := check_significant_event_data_change e entry1.event_data
  let prev := entry1.current_status
  if sig then
    let step :=
      if is_deferred_api e && prev == "active" then
        ({ entry1 with
            current_status := "deferred_pending_match"
            last_alert_type := "deferred"
            last_alert_timestamp := some now
            processing_tags := entry1.processing_tags ++ ["became_deferred"] }, true)
      else if !is_deferred_api e && statusIsDeferred prev then
        ({ entry1 with
            current_status := "active"
            processing_tags := entry1.processing_tags ++ ["deferral_reverted_to_active"] }, false)
      else (entry1, false)
    let entry2 := { step.1 with event_data := e, last_significant_change_timestamp := now }
    let entry3 :=
      if !step.2 then
        { entry2 with processing_tags := entry2.processing_tags ++ ["data_changed"] }
      else entry2
    ({ entry3 with last_processed_timestamp := now }, step.2)
  else if is_deferred_api e && entry1.current_status == "active" then
    let entry2 := { entry1 with
        current_status := "deferred_pending_match"
        last_alert_type := "deferred"
        last_alert_timestamp := some now
        event_data := { entry1.event_data with eventAgendaStatusName := some "Deferred" }
        last_significant_change_timestamp := now
        processing_tags := entry1.processing_tags ++ ["became_deferred"] }
    ({ entry2 with last_processed_timestamp := now }, true)
  else ({ entry1 with last_processed_timestamp := now }, false)

/-- Accumulated state of Pass 1. -/
structure Pass1State where
  db : DB
  processed : List Nat
  newlyAdded : List Nat
  newlyDeferred : List Nat
deriving DecidableEq, Repr

/-- One iteration of Pass 1 over a raw record. -/
def pass1Step (now : Nat) (st : Pass1State) (e : EventData) : Except String Pass1State :=
  match e.eventId with
  | none => Except.error "KeyError: EventId"
  | some eventId =>
    let st := { st with processed := st.processed ++ [eventId] }
    match dbFind st.db eventId with
    | none =>
      let base := init_seen_event_entry e now
      let base := { base with processing_tags := base.processing_tags ++ ["newly_added"] }
      if is_deferred_api e then
        let entry := { base with
            current_status := "deferred_pending_match"
            last_alert_type := "deferred"
            last_alert_timestamp := some now
            last_significant_change_timestamp := now
            processing_tags := base.processing_tags ++ ["became_deferred_on_first_seen"] }
        Except.ok { st with
            db := st.db ++ [(eventId, entry)]
            newlyAdded := st.newlyAdded ++ [eventId]
            newlyDeferred := st.newlyDeferred ++ [eventId] }
      else
        Except.ok { st with
            db := st.db ++ [(eventId, base)]
            newlyAdded := st.newlyAdded ++ [eventId] }
    | some entry0 =>
      let r := updateExistingEntry now e entry0
      Except.ok { st with
          db := dbSet st.db eventId r.1
          newlyDeferred := if r.2 then st.newlyDeferred ++ [eventId] else st.newlyDeferred }

/-- Pass 1 over the whole fetched batch. -/
def pass1 (batch : List EventData) (db : DB) (now : Nat) : Except String Pass1State :=
  batch.foldlM (pass1Step now) { db := db, processed := [], newlyAdded := [], newlyDeferred := [] }

/-! ## Pass 2: matching deferred events with reschedule targets -/

/-- Cutoff `datetime.now() - timedelta(days=30)` for attempting a match. -/
def thirtyDaysAgo (now : Nat) : Nat := now - 30 * minutesPerDay

/-- The two lists built before the matching loop. -/
structure MatchLists where
  targets : List (Nat × SeenEntry)
  awaiting : List (Nat × SeenEntry)
deriving DecidableEq, Repr

/-- Classification pass over the state (in insertion order): collect potential
new reschedule targets and deferred events awaiting a match. -/
def classifyForMatching (now : Nat) : DB → MatchLists
  | [] => { targets := [], awaiting := [] }
  | p :: rest =>
    let r := classifyForMatching now rest
    let entry := p.2
    if entry.last_processed_timestamp == now || entry.current_status == "deferred_pending_match" then
      if entry.current_status == "active" && entry.processing_tags.contains "newly_added" then
        if optStrTruthy entry.event_data.eventDate then { r with targets := p :: r.targets }
        else r
      else if entry.current_status == "deferred_pending_match" then
        match entry.last_alert_timestamp with
        | none => r
        | some t => if thirtyDaysAgo now ≤ t then { r with awaiting := p :: r.awaiting } else r
      else r
    else r

/-- Sort key for potential targets: `get_event_datetime(x) or datetime.max`. -/
def targetSortKey (p : Nat × SeenEntry) : Nat :=
  (get_event_datetime p.2.event_data).getD datetimeMax

/-- Stable ascending sort of the potential targets by event datetime. -/
def sortTargets (l : List (Nat × SeenEntry)) : List (Nat × SeenEntry) :=
  List.insertionSort (fun a b => targetSortKey a ≤ targetSortKey b) l

/-- One pairing produced by the matching loop. -/
structure ReschedPair where
  deferred_event_id : Nat
  rescheduled_to_event_id : Nat
  deferred_event_data_at_deferral : EventData
  rescheduled_event_data : EventData
deriving DecidableEq, Repr

/-- State threaded through the matching loop: the mutable db, the
`matched_new_event_ids` set and the collected pairs. -/
structure MatchState where
  db : DB
  consumed : List Nat
  pairs : List ReschedPair
deriving DecidableEq, Repr

/-- Subscript read of `event_data["EventId"]`; raises `KeyError` when absent. -/
def expectId (e : EventData) : Except String Nat :=
  match e.eventId with
  | none => Except.error "KeyError: EventId"
  | some i => Except.ok i

/-- Python `(s or "").strip()` applied to an optional comment. -/
def stripComment (c : Option String) : List Char :=
  trimChars (c.getD "").toList

/-- The inner candidate scan: first entry of the (sorted) target list passing
the source's heuristics for the given deferred event. Returns the target's
db key, its entry snapshot and its `EventId`. -/
def findMatch (dId : Nat) (dData : EventData) (dDt : Nat) (consumed : List Nat) :
    List (Nat × SeenEntry) → Except String (Option (Nat × SeenEntry × Nat))
  | [] => Except.ok none
  | t :: rest =>
    match expectId t.2.event_data with
    | Except.error msg => Except.error msg
    | Except.ok tId =>
      if tId == dId then findMatch dId dData dDt consumed rest
      else if consumed.contains tId then findMatch dId dData dDt consumed rest
      else if t.2.event_data.eventBodyName != dData.eventBodyName then
        findMatch dId dData dDt consumed rest
      else
        match get_event_datetime t.2.event_data with
        | none => findMatch dId dData dDt consumed rest
        | some tDt =>
          if tDt ≤ dDt then findMatch dId dData dDt consumed rest
          else if stripComment dData.eventComment ≠ stripComment t.2.event_data.eventComment then
            findMatch dId dData dDt consumed rest
          else Except.ok (some (t.1, t.2, tId))

/-- The mutation applied to a matched deferred original. The alert fields are
deliberately untouched (the source's CRITICAL comment). -/
def markRescheduled (now : Nat) (info : MatchInfo) (de : SeenEntry) : SeenEntry :=
  { de with
      current_status := "deferred_rescheduled_internal"
      rescheduled_event_details_if_deferred := some info
      processing_tags := de.processing_tags ++ ["became_rescheduled_match_found_for_original"]
      last_significant_change_timestamp := now }

/-- The mutation applied to the matched reschedule target. The alert fields
are deliberately untouched. -/
def markRescheduleTarget (info : OriginalInfo) (te : SeenEntry) : SeenEntry :=
  { te with
      original_event_details_if_rescheduled := some info
      processing_tags := te.processing_tags ++ ["newly_added_as_reschedule_target"] }

/-- One iteration of the matching loop over a deferred entry awaiting a match.
`d.1` is the db key of the entry (the loop mutates through the reference). -/
def matchLoopStep (now : Nat) (targets : List (Nat × SeenEntry)) (st : MatchState)
    (d : Nat × SeenEntry) : Except String MatchState :=
  match expectId d.2.event_data with
  | Except.error msg => Except.error msg
  | Except.ok dId =>
    match get_event_datetime d.2.event_data with
    | none => Except.ok st
    | some dDt =>
      match findMatch dId d.2.event_data dDt st.consumed targets with
      | Except.error msg => Except.error msg
      | Except.ok none => Except.ok st
      | Except.ok (some (tKey, tEntry, tId)) =>
        let mInfo : MatchInfo :=
          { matched_event_id := tId
            new_date := tEntry.event_data.eventDate
            new_time := tEntry.event_data.eventTime
            new_location := tEntry.event_data.eventLocation
            match_timestamp := now }
        let oInfo : OriginalInfo :=
          { original_event_id := dId
            original_date := d.2.event_data.eventDate
            original_time := d.2.event_data.eventTime
            original_status_when_deferred := "Deferred"
            match_timestamp := now }
        let db1 := dbModify st.db d.1 (markRescheduled now mInfo)
        let db2 := dbModify db1 tKey (markRescheduleTarget oInfo)
        Except.ok
          { db := db2
            consumed := st.consumed ++ [tId]
            pairs := st.pairs ++ [{ deferred_event_id := dId
                                    rescheduled_to_event_id := tId
                                    deferred_event_data_at_deferral := d.2.event_data
                                    rescheduled_event_data := tEntry.event_data }] }

/-- The matching loop over all deferred events awaiting a match. -/
def matchLoop (now : Nat) (targets : List (Nat × SeenEntry))
    (awaiting : List (Nat × SeenEntry)) (st : MatchState) : Except String MatchState :=
  awaiting.foldlM (matchLoopStep now targets) st

/-! ## Pass 3 and the full reconciliation -/

/-- Pass 3 update of a single entry with key `k`: tag events absent from the
current pull; no status change. -/
def pass3Entry (processed : List Nat) (k : Nat) (e : SeenEntry) : SeenEntry :=
  if processed.contains k then e
  else if e.current_status == "active" then
    { e with processing_tags := e.processing_tags ++ ["vanished_from_api_while_active"] }
  else if e.current_status == "deferred_pending_match" then
    { e with processing_tags := e.processing_tags ++ ["vanished_from_api_while_deferred_pending"] }
  else e

/-- Pass 3 over the whole state. -/
def pass3 (db : DB) (processed : List Nat) : DB :=
  db.map (fun p => (p.1, pass3Entry processed p.1 p.2))

/-- The outputs of `process_event_changes`. -/
structure ProcessResult where
  db : DB
  newlyAdded : List Nat
  newlyDeferred : List Nat
  newlyRescheduled : List ReschedPair
deriving DecidableEq, Repr

/-- Model of `process_event_changes`: Pass 1 (create/update), Pass 2
(classify, sort, match) and Pass 3 (absence tags). -/
def process_event_changes (batch : List EventData) (db : DB) (now : Nat) :
    Except String ProcessResult :=
  match pass1 batch db now with
  | Except.error msg => Except.error msg
  | Except.ok st1 =>
    let ls := classifyForMatching now st1.db
    let targets := sortTargets ls.targets
    match matchLoop now targets ls.awaiting { db := st1.db, consumed := [], pairs := [] } with
    | Except.error msg => Except.error msg
    | Except.ok st2 =>
      Except.ok
        { db := pass3 st2.db st1.processed
          newlyAdded := st1.newlyAdded
          newlyDeferred := st1.newlyDeferred
          newlyRescheduled := st2.pairs }

/-! ## Feed assembly (`generate_output_for_webpage`) -/

/-- One item of an updates list. -/
structure UpdateItem where
  type : String
  alert_timestamp : Option Nat
  data : SeenEntry
deriving DecidableEq, Repr

/-- One upcoming hearing card: the entry copy plus its `user_facing_tags`. -/
structure UpEntry where
  entry : SeenEntry
  user_facing_tags : List String
deriving DecidableEq, Repr

/-- The serialized feed artifact. -/
structure WebOutput where
  generation_timestamp : Nat
  upcoming_hearings : List UpEntry
  updates_since_last_run : List UpdateItem
  updates_last_7_days : List UpdateItem
  updates_last_30_days : List UpdateItem
  error : Option String
deriving DecidableEq, Repr

/-- Midnight of the current day: `datetime.now().replace(hour=0, ...)`. -/
def startOfDay (now : Nat) : Nat := (now / minutesPerDay) * minutesPerDay

/-- Sort key of the updates lists: `(alert_timestamp, event datetime or
datetime.min)`; in this model `datetime.min = 0`, which is also the `getD`
fallback for the (unreachable) absent alert timestamp. -/
def updSortKey (x : UpdateItem) : Nat × Nat :=
  (x.alert_timestamp.getD 0, (get_event_datetime x.data.event_data).getD 0)

/-- Lexicographic order on the pair keys. -/
def pairLe (p q : Nat × Nat) : Prop :=
  p.1 < q.1 ∨ (p.1 = q.1 ∧ p.2 ≤ q.2)

instance : DecidableRel pairLe := fun p q => by
  unfold pairLe; infer_instance

/-- Stable descending sort of an updates list (`sort(..., reverse=True)`). -/
def sortUpdatesDesc (l : List UpdateItem) : List UpdateItem :=
  List.insertionSort (fun a b => pairLe (updSortKey b) (updSortKey a)) l

/-- Sort key of the upcoming list: `get_event_datetime(x) or datetime.max`. -/
def upcomingKey (u : UpEntry) : Nat :=
  (get_event_datetime u.entry.event_data).getD datetimeMax

/-- Stable ascending sort of the upcoming list by event datetime. -/
def sortUpcoming (l : List UpEntry) : List UpEntry :=
  List.insertionSort (fun a b => upcomingKey a ≤ upcomingKey b) l

instance : IsTotal UpEntry (fun a b => upcomingKey a ≤ upcomingKey b) :=
  ⟨fun _ _ => Nat.le_total _ _⟩

instance : IsTrans UpEntry (fun a b => upcomingKey a ≤ upcomingKey b) :=
  ⟨fun _ _ _ => Nat.le_trans⟩

/-- First loop of "Updates - Since Last Run": one item per newly added id,
typed with the entry's `last_alert_type`. Subscript lookup may raise. -/
def sinceLastRunAdded (db : DB) (newlyAdded : List Nat) :
    Except String (List UpdateItem) :=
  newlyAdded.foldlM
    (fun acc id =>
      match dbFind db id with
      | none => Except.error "KeyError: seen_events_db[entry_id]"
      | some entry =>
        Except.ok (acc ++ [{ type := entry.last_alert_type
                             alert_timestamp := entry.last_alert_timestamp
                             data := entry }]))
    []

/-- Second loop: newly deferred ids not already reported as newly added,
typed `"deferred"`. -/
def sinceLastRunDeferred (db : DB) (newlyAdded newlyDeferred : List Nat)
    (acc0 : List UpdateItem) : Except String (List UpdateItem) :=
  newlyDeferred.foldlM
    (fun acc id =>
      if newlyAdded.contains id then Except.ok acc
      else
        match dbFind db id with
        | none => Except.error "KeyError: seen_events_db[entry_id]"
        | some entry =>
          Except.ok (acc ++ [{ type := "deferred"
                               alert_timestamp := entry.last_alert_timestamp
                               data := entry }]))
    acc0

/-- The `user_facing_tags` attached to an upcoming hearing card. -/
def upcomingTags (now : Nat) (entry : SeenEntry) : List String :=
  let tags : List String := []
  let tags :=
    if entry.last_alert_type == "new" &&
        decide (now - 2 * minutesPerDay < entry.last_alert_timestamp.getD epoch1970) then
      tags ++ ["new_hearing_tag"]
    else tags
  if entry.original_event_details_if_rescheduled.isSome then
    tags ++ ["rescheduled_hearing_tag"]
  else tags

/-- What one entry contributes to the upcoming list: its card when it is
`active` with a parseable date at or after the start of the current day. -/
def upcomingContribution (now : Nat) (entry : SeenEntry) : List UpEntry :=
  if entry.current_status == "active" then
    match get_event_datetime entry.event_data with
    | some dt =>
      if startOfDay now ≤ dt then
        [{ entry := entry, user_facing_tags := upcomingTags now entry }]
      else []
    | none => []
  else []

/-- The wrapped update item of the 7/30-day lists. -/
def windowItem (entry : SeenEntry) : UpdateItem :=
  { type := entry.last_alert_type
    alert_timestamp := entry.last_alert_timestamp
    data := entry }

/-- The `include_in_7_30_day_updates` test: a `"new"` alert needs a current or
future event date; a `"deferred"` alert is included regardless. -/
def windowInclude (now : Nat) (entry : SeenEntry) : Bool :=
  if entry.last_alert_type == "new" then
    match get_event_datetime entry.event_data with
    | some dt => decide (startOfDay now ≤ dt)
    | none => false
  else entry.last_alert_type == "deferred"

/-- What one entry contributes to the 7-day and 30-day update lists. -/
def windowContribution (now : Nat) (entry : SeenEntry) :
    List UpdateItem × List UpdateItem :=
  if entry.last_alert_type != "" && entry.last_alert_timestamp.isSome then
    if windowInclude now entry then
      ((if now - entry.last_alert_timestamp.getD 0 ≤ 7 * minutesPerDay then
          [windowItem entry] else []),
       (if now - entry.last_alert_timestamp.getD 0 ≤ 30 * minutesPerDay then
          [windowItem entry] else []))
    else ([], [])
  else ([], [])

/-- The single pass of the source that fills the upcoming list and the
7/30-day update lists (before sorting), in state iteration order. -/
def upcomingAndWindows (now : Nat) : DB → List UpEntry × List UpdateItem × List UpdateItem
  | [] => ([], [], [])
  | p :: rest =>
    let r := upcomingAndWindows now rest
    (upcomingContribution now p.2 ++ r.1,
     (windowContribution now p.2).1 ++ r.2.1,
     (windowContribution now p.2).2 ++ r.2.2)

/-- Model of `generate_output_for_webpage`. -/
def generate_output_for_webpage (db : DB) (newlyAdded newlyDeferred : List Nat)
    (pairs : List ReschedPair) (now : Nat) : Except String WebOutput :=
  match sinceLastRunAdded db newlyAdded with
  | Except.error msg => Except.error msg
  | Except.ok l1 =>
    match sinceLastRunDeferred db newlyAdded newlyDeferred l1 with
    | Except.error msg => Except.error msg
    | Except.ok since =>
      let w := upcomingAndWindows now db
      let _ := pairs.length
      Except.ok
        { generation_timestamp := now
          upcoming_hearings := sortUpcoming w.1
          updates_since_last_run := sortUpdatesDesc since
          updates_last_7_days := sortUpdatesDesc w.2.1
          updates_last_30_days := sortUpdatesDesc w.2.2
          error := none }

/-! ## The `main` run -/

/-- Model of `main` after the fetch: the empty-fetch degraded path writes the
loaded state back unchanged and an all-empty artifact with an error field;
otherwise the state is reconciled and the feed generated. -/
def mainRun (fetched : List EventData) (seen : DB) (now : Nat) :
    Except String (DB × WebOutput) :=
  if fetched.isEmpty then
    Except.ok (seen,
      { generation_timestamp := now
        upcoming_hearings := []
        updates_since_last_run := []
        updates_last_7_days := []
        updates_last_30_days := []
        error := some "No events fetched from API." })
  else
    match process_event_changes fetched seen now with
    | Except.error msg => Except.error msg
    | Except.ok r =>
      match generate_output_for_webpage r.db r.newlyAdded r.newlyDeferred r.newlyRescheduled now with
      | Except.error msg => Except.error msg
      | Except.ok out => Except.ok (r.db, out)

/-! ## Views and basic state lemmas -/

/-- The alert-identity fields of an entry. -/
def alertView (e : SeenEntry) : String × Option Nat :=
  (e.last_alert_type, e.last_alert_timestamp)

/-- Lifecycle status together with the alert fields. -/
def stateView (e : SeenEntry) : String × String × Option Nat :=
  (e.current_status, e.last_alert_type, e.last_alert_timestamp)

theorem dbFind_mapEntries (g : Nat → SeenEntry → SeenEntry) (db : DB) (k : Nat) :
    dbFind (db.map (fun p => (p.1, g p.1 p.2))) k = (dbFind db k).map (g k) := by
  induction db with
  | nil => rfl
  | cons p rest ih =>
    by_cases h : p.1 = k
    · subst h; simp [dbFind]
    · simp [dbFind, h, ih]

theorem dbFind_dbModify (db : DB) (k : Nat) (f : SeenEntry → SeenEntry) (k' : Nat) :
    dbFind (dbModify db k f) k' =
      if k' = k then (dbFind db k').map f else dbFind db k' := by
  rw [dbModify, dbFind_mapEntries (fun k1 e => if k1 == k then f e else e) db k']
  by_cases h : k' = k <;> cases dbFind db k' <;> simp [h]

theorem keys_mapEntries (g : Nat → SeenEntry → SeenEntry) (db : DB) :
    (db.map (fun p => (p.1, g p.1 p.2))).map Prod.fst = db.map Prod.fst := by
  simp [List.map_map, Function.comp]

theorem keys_dbModify (db : DB) (k : Nat) (f : SeenEntry → SeenEntry) :
    (dbModify db k f).map Prod.fst = db.map Prod.fst := by
  rw [dbModify]; exact keys_mapEntries (fun a b => if a == k then f b else b) db

theorem dbFind_append_of_some {db : DB} {k : Nat} {v : SeenEntry} (l : DB)
    (h : dbFind db k = some v) : dbFind (db ++ l) k = some v := by
  induction db with
  | nil => simp [dbFind] at h
  | cons p rest ih =>
    by_cases hp : p.1 = k
    · simp [dbFind, hp] at h ⊢; exact h
    · simp [dbFind, hp] at h ⊢; exact ih h

theorem dbFind_append_of_none {db : DB} {k : Nat} (l : DB)
    (h : dbFind db k = none) : dbFind (db ++ l) k = dbFind l k := by
  induction db with
  | nil => rfl
  | cons p rest ih =>
    by_cases hp : p.1 = k
    · simp [dbFind, hp] at h
    · simp [dbFind, hp] at h ⊢; exact ih h

theorem dbFind_eq_none_iff {db : DB} {k : Nat} :
    dbFind db k = none ↔ k ∉ db.map Prod.fst := by
  induction db with
  | nil => simp [dbFind]
  | cons p rest ih =>
    by_cases hp : p.1 = k
    · simp [dbFind, hp]
    · simp [dbFind, hp, ih, Ne.symm hp]

theorem mem_of_dbFind_some {db : DB} {k : Nat} {v : SeenEntry}
    (h : dbFind db k = some v) : (k, v) ∈ db := by
  induction db with
  | nil => simp [dbFind] at h
  | cons p rest ih =>
    obtain ⟨a, b⟩ := p
    by_cases hp : a = k
    · subst hp
      simp [dbFind] at h
      subst h
      exact List.mem_cons_self _ _
    · simp [dbFind, hp] at h
      exact List.mem_cons_of_mem _ (ih h)

theorem dbFind_of_mem_nodup {db : DB} {k : Nat} {v : SeenEntry}
    (hN : (db.map Prod.fst).Nodup) (h : (k, v) ∈ db) : dbFind db k = some v := by
  induction db with
  | nil => simp at h
  | cons p rest ih =>
    obtain ⟨a, b⟩ := p
    simp only [List.map_cons, List.nodup_cons] at hN
    rcases List.mem_cons.mp h with h1 | h1
    · cases h1
      simp [dbFind]
    · have hk : a ≠ k := by
        intro he
        subst he
        exact hN.1 (by simpa using List.mem_map_of_mem Prod.fst h1)
      simp [dbFind, hk]
      exact ih hN.2 h1

theorem except_bind_ok {α β : Type} (x : Except String α) (g : α → Except String β) (b : β) :
    x >>= g = Except.ok b ↔ ∃ a, x = Except.ok a ∧ g a = Except.ok b := by
  cases x <;> simp [Bind.bind, Except.bind]

theorem alertView_markRescheduled (now : Nat) (info : MatchInfo) (de : SeenEntry) :
    alertView (markRescheduled now info de) = alertView de := rfl

theorem alertView_markRescheduleTarget (info : OriginalInfo) (te : SeenEntry) :
    alertView (markRescheduleTarget info te) = alertView te := rfl

theorem stateView_markRescheduleTarget (info : OriginalInfo) (te : SeenEntry) :
    stateView (markRescheduleTarget info te) = stateView te := rfl

theorem stateView_pass3Entry (processed : List Nat) (k : Nat) (e : SeenEntry) :
    stateView (pass3Entry processed k e) = stateView e := by
  unfold pass3Entry; split_ifs <;> rfl

theorem dbFind_pass3 (db : DB) (processed : List Nat) (k : Nat) :
    dbFind (pass3 db processed) k = (dbFind db k).map (pass3Entry processed k) :=
  dbFind_mapEntries _ db k

/-! ## Matching-loop preservation lemmas -/

theorem findMatch_mem {dId : Nat} {dData : EventData} {dDt : Nat} {consumed : List Nat}
    {l : List (Nat × SeenEntry)} {tKey : Nat} {tEntry : SeenEntry} {tId : Nat}
    (h : findMatch dId dData dDt consumed l = Except.ok (some (tKey, tEntry, tId))) :
    (tKey, tEntry) ∈ l := by
  induction l with
  | nil => simp [findMatch] at h
  | cons t rest ih =>
    unfold findMatch at h
    cases hid : t.2.event_data.eventId with
    | none => simp [expectId, hid] at h
    | some i =>
      simp only [expectId, hid] at h
      by_cases h1 : (i == dId) = true
      · rw [if_pos h1] at h; exact List.mem_cons_of_mem _ (ih h)
      · rw [if_neg h1] at h
        by_cases h2 : consumed.contains i = true
        · rw [if_pos h2] at h; exact List.mem_cons_of_mem _ (ih h)
        · rw [if_neg h2] at h
          by_cases h3 : (t.2.event_data.eventBodyName != dData.eventBodyName) = true
          · rw [if_pos h3] at h; exact List.mem_cons_of_mem _ (ih h)
          · rw [if_neg h3] at h
            cases hdt : get_event_datetime t.2.event_data with
            | none => simp only [hdt] at h; exact List.mem_cons_of_mem _ (ih h)
            | some tDt =>
              simp only [hdt] at h
              by_cases h4 : tDt ≤ dDt
              · rw [if_pos h4] at h; exact List.mem_cons_of_mem _ (ih h)
              · rw [if_neg h4] at h
                by_cases h5 : stripComment dData.eventComment ≠ stripComment t.2.event_data.eventComment
                · rw [if_pos h5] at h; exact List.mem_cons_of_mem _ (ih h)
                · rw [if_neg h5] at h
                  injection h with h
                  injection h with h
                  obtain ⟨a, b⟩ := t
                  simp at h
                  simp [h.1, h.2.1]

theorem matchLoopStep_alertView {now : Nat} {targets : List (Nat × SeenEntry)}
    {st st' : MatchState} {d : Nat × SeenEntry}
    (h : matchLoopStep now targets st d = Except.ok st') (k : Nat) :
    (dbFind st'.db k).map alertView = (dbFind st.db k).map alertView := by
  unfold matchLoopStep at h
  cases hid : d.2.event_data.eventId with
  | none => simp [expectId, hid] at h
  | some dId =>
    simp only [expectId, hid] at h
    cases hdt : get_event_datetime d.2.event_data with
    | none => simp only [hdt] at h; injection h with h; rw [← h]
    | some dDt =>
      simp only [hdt] at h
      cases hf : findMatch dId d.2.event_data dDt st.consumed targets with
      | error m => simp only [hf] at h; exact Except.noConfusion h
      | ok o =>
        simp only [hf] at h
        cases o with
        | none => injection h with h; rw [← h]
        | some trip =>
          obtain ⟨tKey, tEntry, tId⟩ := trip
          injection h with h
          rw [← h]
          simp only [dbFind_dbModify]
          split_ifs <;> cases hsk : dbFind st.db k <;>
            simp [alertView_markRescheduled, alertView_markRescheduleTarget]

theorem matchLoop_alertView {now : Nat} {targets : List (Nat × SeenEntry)}
    (awaiting : List (Nat × SeenEntry)) {st st' : MatchState}
    (h : matchLoop now targets awaiting st = Except.ok st') (k : Nat) :
    (dbFind st'.db k).map alertView = (dbFind st.db k).map alertView := by
  induction awaiting generalizing st with
  | nil =>
    unfold matchLoop at h
    simp only [List.foldlM_nil] at h
    injection h with h
    rw [← h]
  | cons d rest ih =>
    unfold matchLoop at h ih
    rw [List.foldlM_cons, except_bind_ok] at h
    obtain ⟨st1, hstep, hrest⟩ := h
    exact (ih hrest).trans (matchLoopStep_alertView hstep k)

theorem matchLoopStep_frame {now : Nat} {targets : List (Nat × SeenEntry)}
    {st st' : MatchState} {d : Nat × SeenEntry} {k : Nat}
    (h : matchLoopStep now targets st d = Except.ok st')
    (hd : d.1 ≠ k) (ht : ∀ tp ∈ targets, tp.1 ≠ k) :
    dbFind st'.db k = dbFind st.db k := by
  unfold matchLoopStep at h
  cases hid : d.2.event_data.eventId with
  | none => simp [expectId, hid] at h
  | some dId =>
    simp only [expectId, hid] at h
    cases hdt : get_event_datetime d.2.event_data with
    | none => simp only [hdt] at h; injection h with h; rw [← h]
    | some dDt =>
      simp only [hdt] at h
      cases hf : findMatch dId d.2.event_data dDt st.consumed targets with
      | error m => simp only [hf] at h; exact Except.noConfusion h
      | ok o =>
        simp only [hf] at h
        cases o with
        | none => injection h with h; rw [← h]
        | some trip =>
          obtain ⟨tKey, tEntry, tId⟩ := trip
          injection h with h
          rw [← h]
          have htk : tKey ≠ k := ht (tKey, tEntry) (findMatch_mem hf)
          simp only [dbFind_dbModify]
          rw [if_neg (Ne.symm htk), if_neg (fun he => hd he.symm)]

theorem matchLoop_frame {now : Nat} {targets : List (Nat × SeenEntry)}
    (awaiting : List (Nat × SeenEntry)) {st st' : MatchState} {k : Nat}
    (h : matchLoop now targets awaiting st = Except.ok st')
    (ha : ∀ dp ∈ awaiting, dp.1 ≠ k) (ht : ∀ tp ∈ targets, tp.1 ≠ k) :
    dbFind st'.db k = dbFind st.db k := by
  induction awaiting generalizing st with
  | nil =>
    unfold matchLoop at h
    simp only [List.foldlM_nil] at h
    injection h with h
    rw [← h]
  | cons d rest ih =>
    unfold matchLoop at h ih
    rw [List.foldlM_cons, except_bind_ok] at h
    obtain ⟨st1, hstep, hrest⟩ := h
    have h1 := matchLoopStep_frame hstep (ha d (List.mem_cons_self d rest)) ht
    have h2 := ih hrest (fun dp hdp => ha dp (List.mem_cons_of_mem d hdp))
    exact h2.trans h1

/-! ## Concrete example data used by witnesses and counterexamples -/

/-- Convenience constructor for raw records in the concrete examples. -/
def mkEvent (id : Option Nat) (body date time comment status : Option String) : EventData :=
  { eventId := id
    eventBodyName := body
    eventDate := date
    eventTime := time
    eventLocation := some "Council Chambers"
    eventAgendaStatusName := status
    eventComment := comment }

/-- A reference run timestamp: 2024-01-10, 10:00. -/
def exDay0 : Nat := daysFromCivil 2024 1 10 * minutesPerDay + 600

/-! ## C7 -/

/-- C7: when the fetch returns zero records, the run performs no mutation of
the loaded state (it is written back as is), emits a feed artifact whose four
lists are all empty together with an explicit error annotation, and terminates
without an exception (`Except.ok`). -/
theorem C7_empty_fetch_degraded (seen : DB) (now : Nat) :
    mainRun [] seen now =
      Except.ok (seen,
        { generation_timestamp := now
          upcoming_hearings := []
          updates_since_last_run := []
          updates_last_7_days := []
          updates_last_30_days := []
          error := some "No events fetched from API." }) := rfl

/-! ## C8 -/

/-- C8: for an already-tracked entry, the Pass 1 update changes
`last_alert_type`/`last_alert_timestamp` only on the `Active →
DeferredPendingMatch` edge (the source label newly indicating deferral); in
every other case — cosmetic snapshot refresh of an unchanged status, and in
particular the reversion `DeferredPendingMatch → Active` — both alert fields
are left exactly as they were. (Creation and its alert initialisation happen
in the unknown-identity branch, not here.) -/
theorem C8_alerts_change_only_on_deferral_edge (now : Nat) (e : EventData) (entry : SeenEntry)
    (h : (updateExistingEntry now e entry).1.last_alert_type ≠ entry.last_alert_type ∨
         (updateExistingEntry now e entry).1.last_alert_timestamp ≠ entry.last_alert_timestamp) :
    entry.current_status = "active" ∧ is_deferred_api e = true ∧
      (updateExistingEntry now e entry).1.current_status = "deferred_pending_match" ∧
      (updateExistingEntry now e entry).1.last_alert_type = "deferred" ∧
      (updateExistingEntry now e entry).1.last_alert_timestamp = some now := by
  by_cases c1 : check_significant_event_data_change e entry.event_data = true
  · by_cases c2 : (is_deferred_api e && entry.current_status == "active") = true
    · have c2' := c2
      simp only [Bool.and_eq_true, beq_iff_eq] at c2'
      exact ⟨c2'.2, c2'.1, by simp [updateExistingEntry, c1, c2],
        by simp [updateExistingEntry, c1, c2], by simp [updateExistingEntry, c1, c2]⟩
    · exfalso
      by_cases c3 : (!is_deferred_api e && statusIsDeferred entry.current_status) = true
      · simp [updateExistingEntry, c1, c2, c3] at h
      · simp [updateExistingEntry, c1, c2, c3] at h
  · by_cases c2 : (is_deferred_api e && entry.current_status == "active") = true
    · have c2' := c2
      simp only [Bool.and_eq_true, beq_iff_eq] at c2'
      exact ⟨c2'.2, c2'.1, by simp [updateExistingEntry, c1, c2],
        by simp [updateExistingEntry, c1, c2], by simp [updateExistingEntry, c1, c2]⟩
    · exfalso
      simp [updateExistingEntry, c1, c2] at h

/-- A stored entry that is active, created on an earlier run. -/
def c8entry : SeenEntry :=
  init_seen_event_entry
    (mkEvent (some 5) (some "Budget Committee") (some "2024-02-01T00:00:00")
      (some "10:00 AM") (some "on the budget") (some "Final")) exDay0

/-- The same event as newly reported deferred by the source. -/
def c8event : EventData :=
  mkEvent (some 5) (some "Budget Committee") (some "2024-02-01T00:00:00")
    (some "10:00 AM") (some "on the budget") (some "Deferred")

theorem C8_witness :
    c8entry.current_status = "active" ∧ is_deferred_api c8event = true ∧
      (updateExistingEntry (exDay0 + 1440) c8event c8entry).1.current_status =
        "deferred_pending_match" ∧
      (updateExistingEntry (exDay0 + 1440) c8event c8entry).1.last_alert_type = "deferred" ∧
      (updateExistingEntry (exDay0 + 1440) c8event c8entry).1.last_alert_timestamp =
        some (exDay0 + 1440) :=
  C8_alerts_change_only_on_deferral_edge (exDay0 + 1440) c8event c8entry (Or.inl (by decide))

/-! ## C2 -/

theorem alertView_pass3Entry (processed : List Nat) (k : Nat) (e : SeenEntry) :
    alertView (pass3Entry processed k e) = alertView e := by
  unfold pass3Entry; split_ifs <;> rfl

/-- C2: a successful match never touches the alert fields. Formally: across
the whole matching pass and the final absence-tagging pass, every entry of the
state — in particular the deferred original and the matched successor of every
pairing — keeps exactly the `last_alert_type` and `last_alert_timestamp` it
had immediately after Pass 1, i.e. immediately before the match. A match
changes only the lifecycle status, the cross-reference fields, the processing
tags and the significant-change timestamp. -/
theorem C2_match_alert_stability (batch : List EventData) (db : DB) (now : Nat)
    (st1 : Pass1State) (r : ProcessResult)
    (h1 : pass1 batch db now = Except.ok st1)
    (h2 : process_event_changes batch db now = Except.ok r) (k : Nat) :
    (dbFind r.db k).map alertView = (dbFind st1.db k).map alertView := by
  unfold process_event_changes at h2
  simp only [h1] at h2
  cases hm : matchLoop now (sortTargets (classifyForMatching now st1.db).targets)
      (classifyForMatching now st1.db).awaiting
      { db := st1.db, consumed := [], pairs := [] } with
  | error m => simp only [hm] at h2; exact Except.noConfusion h2
  | ok st2 =>
    simp only [hm] at h2
    injection h2 with h2
    rw [← h2]
    have hp3 : (dbFind (pass3 st2.db st1.processed) k).map alertView =
        (dbFind st2.db k).map alertView := by
      rw [dbFind_pass3]
      cases dbFind st2.db k <;> simp [alertView_pass3Entry]
    exact hp3.trans (matchLoop_alertView _ hm k)

/-- Scenario A data: event 1 first seen active, later deferred; event 2
appears as the reschedule target. -/
def exE1a : EventData :=
  mkEvent (some 1) (some "B") (some "2024-02-01T00:00:00") (some "10:00 AM")
    (some "zoning") (some "Final")

def exE1d : EventData :=
  mkEvent (some 1) (some "B") (some "2024-02-01T00:00:00") (some "10:00 AM")
    (some "zoning") (some "Deferred")

def exE2 : EventData :=
  mkEvent (some 2) (some "B") (some "2024-02-15T00:00:00") (some "10:00 AM")
    (some "zoning") (some "Final")

def exT1 : Nat := exDay0 + minutesPerDay

def exT2 : Nat := exDay0 + 2 * minutesPerDay

def exR1 : ProcessResult :=
  (process_event_changes [exE1a] [] exDay0).toOption.getD ⟨[], [], [], []⟩

def exR2 : ProcessResult :=
  (process_event_changes [exE1d] exR1.db exT1).toOption.getD ⟨[], [], [], []⟩

def exBatch3 : List EventData := [exE1d, exE2]

def exSt3 : Pass1State :=
  (pass1 exBatch3 exR2.db exT2).toOption.getD ⟨[], [], [], []⟩

def exR3 : ProcessResult :=
  (process_event_changes exBatch3 exR2.db exT2).toOption.getD ⟨[], [], [], []⟩

theorem C2_witness :
    (dbFind exR3.db 1).map alertView = (dbFind exSt3.db 1).map alertView :=
  C2_match_alert_stability exBatch3 exR2.db exT2 exSt3 exR3 (by rfl) (by rfl) 1

/-! ## C10 -/

/-- The tracked entry produced for an event already reported `Deferred` the
first time it is seen. -/
def bornDeferred (e : EventData) (now : Nat) : SeenEntry :=
  { event_data := e
    first_seen_timestamp := now
    last_seen_timestamp := now
    last_processed_timestamp := now
    last_significant_change_timestamp := now
    current_status := "deferred_pending_match"
    original_event_details_if_rescheduled := none
    rescheduled_event_details_if_deferred := none
    processing_tags := ["newly_added", "became_deferred_on_first_seen"]
    last_alert_type := "deferred"
    last_alert_timestamp := some now }

/-- C10: an event that is already reported deferred on first sight is created
in `deferred_pending_match` with alert type `"deferred"`, is reported in both
the newly-added and newly-deferred outputs, and appears exactly once — with
type `"deferred"` — in the since-last-run updates feed. -/
theorem C10_born_deferred_single_update (e : EventData) (i now : Nat)
    (hid : e.eventId = some i)
    (hdef : is_deferred_api e = true) :
    ∃ r out,
      process_event_changes [e] [] now = Except.ok r ∧
      r.newlyAdded = [i] ∧ r.newlyDeferred = [i] ∧
      (dbFind r.db i).map stateView =
        some ("deferred_pending_match", "deferred", some now) ∧
      generate_output_for_webpage r.db r.newlyAdded r.newlyDeferred r.newlyRescheduled now =
        Except.ok out ∧
      out.updates_since_last_run.map (fun it => it.type) = ["deferred"] ∧
      out.updates_since_last_run.map (fun it => it.data.event_data.eventId) = [some i] := by
  have hp1 : pass1 [e] [] now =
      Except.ok ⟨[(i, bornDeferred e now)], [i], [i], [i]⟩ := by
    simp [pass1, pass1Step, hid, hdef, dbFind, init_seen_event_entry, bornDeferred,
      Bind.bind, Except.bind, pure, Except.pure]
  have hcl : classifyForMatching now [(i, bornDeferred e now)] =
      ⟨[], [(i, bornDeferred e now)]⟩ := by
    simp [classifyForMatching, bornDeferred, thirtyDaysAgo, Nat.sub_le]
  have hml : matchLoop now (sortTargets []) [(i, bornDeferred e now)]
      ⟨[(i, bornDeferred e now)], [], []⟩ =
      Except.ok ⟨[(i, bornDeferred e now)], [], []⟩ := by
    cases hdt : get_event_datetime e with
    | none =>
      simp [matchLoop, matchLoopStep, expectId, bornDeferred, hid, hdt, sortTargets,
        List.insertionSort, findMatch, Bind.bind, Except.bind, pure, Except.pure]
    | some dDt =>
      simp [matchLoop, matchLoopStep, expectId, bornDeferred, hid, hdt, sortTargets,
        List.insertionSort, findMatch, Bind.bind, Except.bind, pure, Except.pure]
  have hproc : process_event_changes [e] [] now =
      Except.ok ⟨[(i, bornDeferred e now)], [i], [i], []⟩ := by
    unfold process_event_changes
    rw [hp1]
    simp only [hcl]
    rw [show sortTargets ([] : List (Nat × SeenEntry)) = [] from rfl] at hml ⊢
    rw [hml]
    simp [pass3, pass3Entry]
  refine ⟨_, { generation_timestamp := now
               upcoming_hearings := []
               updates_since_last_run := [⟨"deferred", some now, bornDeferred e now⟩]
               updates_last_7_days := [⟨"deferred", some now, bornDeferred e now⟩]
               updates_last_30_days := [⟨"deferred", some now, bornDeferred e now⟩]
               error := none }, hproc, rfl, rfl, ?_, ?_, rfl, ?_⟩
  · simp [dbFind, stateView, bornDeferred]
  · show generate_output_for_webpage [(i, bornDeferred e now)] [i] [i] [] now = Except.ok _
    simp [generate_output_for_webpage, sinceLastRunAdded, sinceLastRunDeferred,
      upcomingAndWindows, upcomingContribution, windowContribution, windowInclude,
      windowItem, sortUpdatesDesc, sortUpcoming, dbFind, bornDeferred,
      List.insertionSort, List.orderedInsert, Bind.bind, Except.bind, pure, Except.pure,
      Nat.sub_self]
  · simp [bornDeferred, hid]

/-- An event that is already `Deferred` the first time it is fetched. -/
def c10event : EventData :=
  mkEvent (some 9) (some "Parks Committee") (some "2024-03-01T00:00:00") none
    (some "trees") (some "Deferred")

theorem C10_witness :
    ∃ r out,
      process_event_changes [c10event] [] exDay0 = Except.ok r ∧
      r.newlyAdded = [9] ∧ r.newlyDeferred = [9] ∧
      (dbFind r.db 9).map stateView =
        some ("deferred_pending_match", "deferred", some exDay0) ∧
      generate_output_for_webpage r.db r.newlyAdded r.newlyDeferred r.newlyRescheduled exDay0 =
        Except.ok out ∧
      out.updates_since_last_run.map (fun it => it.type) = ["deferred"] ∧
      out.updates_since_last_run.map (fun it => it.data.event_data.eventId) = [some 9] :=
  C10_born_deferred_single_update c10event 9 exDay0 (by rfl) (by rfl)

/-! ## C6 -/

theorem mem_upcomingContribution {now : Nat} {entry : SeenEntry} {u : UpEntry} :
    u ∈ upcomingContribution now entry ↔
      entry.current_status = "active" ∧
      (∃ dt, get_event_datetime entry.event_data = some dt ∧ startOfDay now ≤ dt) ∧
      u = { entry := entry, user_facing_tags := upcomingTags now entry } := by
  unfold upcomingContribution
  by_cases hs : entry.current_status = "active"
  · cases hdt : get_event_datetime entry.event_data with
    | none => simp [hs, hdt]
    | some dt =>
      by_cases hge : startOfDay now ≤ dt
      · simp [hs, hdt, hge, and_comm]
      · simp [hs, hdt, hge]
  · simp [hs]

theorem mem_upcomingAndWindows_fst {now : Nat} {db : DB} {u : UpEntry} :
    u ∈ (upcomingAndWindows now db).1 ↔
      ∃ q ∈ db, u ∈ upcomingContribution now q.2 := by
  induction db with
  | nil => simp [upcomingAndWindows]
  | cons p rest ih =>
    rw [upcomingAndWindows]
    simp only [List.mem_append, ih, List.mem_cons]
    constructor
    · rintro (h | ⟨q, hq, h⟩)
      · exact ⟨p, Or.inl rfl, h⟩
      · exact ⟨q, Or.inr hq, h⟩
    · rintro ⟨q, hq | hq, h⟩
      · subst hq; exact Or.inl h
      · exact Or.inr ⟨q, hq, h⟩

theorem generate_ok_parts {db : DB} {nA nD : List Nat} {prs : List ReschedPair}
    {now : Nat} {out : WebOutput}
    (h : generate_output_for_webpage db nA nD prs now = Except.ok out) :
    out.upcoming_hearings = sortUpcoming (upcomingAndWindows now db).1 ∧
    out.updates_last_7_days = sortUpdatesDesc (upcomingAndWindows now db).2.1 ∧
    out.updates_last_30_days = sortUpdatesDesc (upcomingAndWindows now db).2.2 := by
  unfold generate_output_for_webpage at h
  cases ha : sinceLastRunAdded db nA with
  | error m => simp only [ha] at h; exact Except.noConfusion h
  | ok l1 =>
    simp only [ha] at h
    cases hb : sinceLastRunDeferred db nA nD l1 with
    | error m => simp only [hb] at h; exact Except.noConfusion h
    | ok since_list =>
      simp only [hb] at h
      injection h with h
      rw [← h]
      exact ⟨rfl, rfl, rfl⟩

theorem mem_sortUpcoming {l : List UpEntry} {u : UpEntry} :
    u ∈ sortUpcoming l ↔ u ∈ l := by
  unfold sortUpcoming
  exact List.mem_insertionSort _

/-- C6 amended: the Upcoming feed contains exactly the `active` entries whose
parsed date/time is at or after the START OF THE CURRENT DAY (the source
compares against midnight of "today", not the current instant), sorted
ascending by date/time; in particular no entry in
`deferred_rescheduled_internal` (the `DeferredRescheduled` status) appears. -/
theorem C6_upcoming_characterization (db : DB) (nA nD : List Nat)
    (prs : List ReschedPair) (now : Nat) (out : WebOutput)
    (h : generate_output_for_webpage db nA nD prs now = Except.ok out) :
    (∀ u ∈ out.upcoming_hearings, u.entry.current_status = "active" ∧
       ∃ dt, get_event_datetime u.entry.event_data = some dt ∧ startOfDay now ≤ dt) ∧
    (∀ u ∈ out.upcoming_hearings, u.entry.current_status ≠ "deferred_rescheduled_internal") ∧
    (∀ q ∈ db, q.2.current_status = "active" →
       ∀ dt, get_event_datetime q.2.event_data = some dt → startOfDay now ≤ dt →
         ({ entry := q.2, user_facing_tags := upcomingTags now q.2 } : UpEntry) ∈
           out.upcoming_hearings) ∧
    out.upcoming_hearings.Sorted (fun a b => upcomingKey a ≤ upcomingKey b) := by
  have hup := (generate_ok_parts h).1
  have hmem : ∀ u : UpEntry, u ∈ out.upcoming_hearings ↔
      ∃ q ∈ db, u ∈ upcomingContribution now q.2 := by
    intro u
    rw [hup, mem_sortUpcoming, mem_upcomingAndWindows_fst]
  refine ⟨?_, ?_, ?_, ?_⟩
  · intro u hu
    obtain ⟨q, _, hc⟩ := (hmem u).mp hu
    obtain ⟨hs, ⟨dt, hdt, hge⟩, hueq⟩ := mem_upcomingContribution.mp hc
    subst hueq
    exact ⟨hs, dt, hdt, hge⟩
  · intro u hu
    obtain ⟨q, _, hc⟩ := (hmem u).mp hu
    obtain ⟨hs, _, hueq⟩ := mem_upcomingContribution.mp hc
    subst hueq
    simp [hs]
  · intro q hq hs dt hdt hge
    exact (hmem _).mpr ⟨q, hq, mem_upcomingContribution.mpr ⟨hs, ⟨dt, hdt, hge⟩, rfl⟩⟩
  · rw [hup]
    unfold sortUpcoming
    exact List.sorted_insertionSort _ _

/-- An active entry dated today at midnight, while "now" is 10:00 of the same
day: the source still places it in the Upcoming feed. -/
def c6entry : SeenEntry :=
  init_seen_event_entry
    (mkEvent (some 7) (some "B") (some "2024-01-10T00:00:00") none none (some "Final"))
    (exDay0 - 5)

/-- C6 counterexample: the claim "date/time at or after now" fails — with
`now` at 2024-01-10 10:00, the active hearing dated 2024-01-10 00:00 (which is
strictly before `now`) is in the Upcoming feed, because the source compares
against the start of the day. -/
theorem C6_counterexample :
    ((generate_output_for_webpage [(7, c6entry)] [] [] [] exDay0).toOption.map
      (fun o => o.upcoming_hearings.map
        (fun u => (get_event_datetime u.entry.event_data).getD 0))) =
      some [daysFromCivil 2024 1 10 * minutesPerDay] ∧
    daysFromCivil 2024 1 10 * minutesPerDay < exDay0 := by
  constructor
  · rfl
  · decide

theorem C6_witness :
    (∀ u ∈ ((generate_output_for_webpage [(7, c6entry)] [] [] [] exDay0).toOption.getD
        ⟨0, [], [], [], [], none⟩).upcoming_hearings,
      u.entry.current_status = "active" ∧
      ∃ dt, get_event_datetime u.entry.event_data = some dt ∧ startOfDay exDay0 ≤ dt) ∧
    (∀ u ∈ ((generate_output_for_webpage [(7, c6entry)] [] [] [] exDay0).toOption.getD
        ⟨0, [], [], [], [], none⟩).upcoming_hearings,
      u.entry.current_status ≠ "deferred_rescheduled_internal") ∧
    (∀ q ∈ [(7, c6entry)], q.2.current_status = "active" →
       ∀ dt, get_event_datetime q.2.event_data = some dt → startOfDay exDay0 ≤ dt →
         ({ entry := q.2, user_facing_tags := upcomingTags exDay0 q.2 } : UpEntry) ∈
           ((generate_output_for_webpage [(7, c6entry)] [] [] [] exDay0).toOption.getD
             ⟨0, [], [], [], [], none⟩).upcoming_hearings) ∧
    ((generate_output_for_webpage [(7, c6entry)] [] [] [] exDay0).toOption.getD
        ⟨0, [], [], [], [], none⟩).upcoming_hearings.Sorted
      (fun a b => upcomingKey a ≤ upcomingKey b) :=
  C6_upcoming_characterization [(7, c6entry)] [] [] [] exDay0 _ (by rfl)

/-! ## Classification characterization and Pass 1 preservation lemmas -/

/-- The condition under which an entry enters the potential-target list. -/
def targetCond (now : Nat) (p : Nat × SeenEntry) : Bool :=
  (p.2.last_processed_timestamp == now || p.2.current_status == "deferred_pending_match") &&
  (p.2.current_status == "active" && p.2.processing_tags.contains "newly_added") &&
  optStrTruthy p.2.event_data.eventDate

/-- The condition under which an entry enters the awaiting-match list. -/
def awaitingCond (now : Nat) (p : Nat × SeenEntry) : Bool :=
  (p.2.last_processed_timestamp == now || p.2.current_status == "deferred_pending_match") &&
  !(p.2.current_status == "active" && p.2.processing_tags.contains "newly_added") &&
  (p.2.current_status == "deferred_pending_match") &&
  (match p.2.last_alert_timestamp with
   | none => false
   | some t => decide (thirtyDaysAgo now ≤ t))

theorem classify_eq_filter (now : Nat) (db : DB) :
    classifyForMatching now db =
      ⟨db.filter (targetCond now), db.filter (awaitingCond now)⟩ := by
  induction db with
  | nil => rfl
  | cons p rest ih =>
    rw [classifyForMatching, ih]
    rcases hts : p.2.last_alert_timestamp with _ | t <;>
      by_cases h1 : p.2.last_processed_timestamp = now <;>
      by_cases h2 : p.2.current_status = "active" <;>
      by_cases h4 : p.2.current_status = "deferred_pending_match" <;>
      by_cases h3 : "newly_added" ∈ p.2.processing_tags <;>
      by_cases h5 : optStrTruthy p.2.event_data.eventDate = true <;>
      simp [targetCond, awaitingCond, List.filter_cons, h1, h2, h3, h4, h5, hts] <;>
      (try (split_ifs <;> rfl))

theorem mem_sortTargets {l : List (Nat × SeenEntry)} {tp : Nat × SeenEntry} :
    tp ∈ sortTargets l ↔ tp ∈ l := by
  unfold sortTargets
  exact List.mem_insertionSort _

/-- `updateExistingEntry` on a deferred-pending entry whose source record still
says `Deferred`: status and alert fields are untouched. -/
theorem updateExistingEntry_dpm_deferred {now : Nat} {e : EventData} {entry : SeenEntry}
    (hst : entry.current_status = "deferred_pending_match")
    (hdef : is_deferred_api e = true) :
    (updateExistingEntry now e entry).1.current_status = "deferred_pending_match" ∧
    alertView (updateExistingEntry now e entry).1 = alertView entry := by
  by_cases hsig : check_significant_event_data_change e entry.event_data = true <;>
    simp [updateExistingEntry, hsig, hst, hdef, alertView]

theorem pass1Step_preserves_dpm {now : Nat} {st stm : Pass1State} {e : EventData}
    {k : Nat} {entry : SeenEntry}
    (hfind : dbFind st.db k = some entry)
    (hst : entry.current_status = "deferred_pending_match")
    (hb : e.eventId = some k → is_deferred_api e = true)
    (h : pass1Step now st e = Except.ok stm) :
    ∃ ent, dbFind stm.db k = some ent ∧
      ent.current_status = "deferred_pending_match" ∧ alertView ent = alertView entry := by
  unfold pass1Step at h
  cases hid : e.eventId with
  | none => simp only [hid] at h; exact Except.noConfusion h
  | some i =>
    simp only [hid] at h
    by_cases hik : i = k
    · subst hik
      have hdef : is_deferred_api e = true := hb hid
      simp only [hfind] at h
      injection h with h
      rw [← h]
      refine ⟨(updateExistingEntry now e entry).1, ?_, ?_, ?_⟩
      · show dbFind (dbSet st.db i (updateExistingEntry now e entry).1) i = _
        rw [dbSet, dbFind_dbModify]
        simp [hfind]
      · exact (updateExistingEntry_dpm_deferred hst hdef).1
      · exact (updateExistingEntry_dpm_deferred hst hdef).2
    · cases hfi : dbFind st.db i with
      | none =>
        simp only [hfi] at h
        by_cases hd : is_deferred_api e = true
        · rw [if_pos hd] at h
          injection h with h
          rw [← h]
          exact ⟨entry, dbFind_append_of_some _ hfind, hst, rfl⟩
        · rw [if_neg hd] at h
          injection h with h
          rw [← h]
          exact ⟨entry, dbFind_append_of_some _ hfind, hst, rfl⟩
      | some entry0 =>
        simp only [hfi] at h
        injection h with h
        rw [← h]
        refine ⟨entry, ?_, hst, rfl⟩
        show dbFind (dbSet st.db i _) k = some entry
        rw [dbSet, dbFind_dbModify, if_neg (fun he => hik he.symm)]
        exact hfind

theorem pass1_preserves_dpm {now : Nat} (batch : List EventData) {st st' : Pass1State}
    {k : Nat} {entry : SeenEntry}
    (hfind : dbFind st.db k = some entry)
    (hst : entry.current_status = "deferred_pending_match")
    (hb : ∀ e ∈ batch, e.eventId = some k → is_deferred_api e = true)
    (h : batch.foldlM (pass1Step now) st = Except.ok st') :
    ∃ ent, dbFind st'.db k = some ent ∧
      ent.current_status = "deferred_pending_match" ∧ alertView ent = alertView entry := by
  induction batch generalizing st entry with
  | nil =>
    simp only [List.foldlM_nil] at h
    injection h with h
    rw [← h]
    exact ⟨entry, hfind, hst, rfl⟩
  | cons e rest ih =>
    rw [List.foldlM_cons, except_bind_ok] at h
    obtain ⟨stm, hstep, hrest⟩ := h
    obtain ⟨ent1, hf1, hs1, ha1⟩ :=
      pass1Step_preserves_dpm hfind hst (hb e (List.mem_cons_self e rest)) hstep
    obtain ⟨ent2, hf2, hs2, ha2⟩ :=
      ih hf1 hs1 (fun e' he' => hb e' (List.mem_cons_of_mem e he')) hrest
    exact ⟨ent2, hf2, hs2, ha2.trans ha1⟩

theorem pass1Step_keys_nodup {now : Nat} {st stm : Pass1State} {e : EventData}
    (h : pass1Step now st e = Except.ok stm)
    (hN : (st.db.map Prod.fst).Nodup) : (stm.db.map Prod.fst).Nodup := by
  unfold pass1Step at h
  cases hid : e.eventId with
  | none => simp only [hid] at h; exact Except.noConfusion h
  | some i =>
    simp only [hid] at h
    cases hfi : dbFind st.db i with
    | none =>
      simp only [hfi] at h
      have hni : i ∉ st.db.map Prod.fst := dbFind_eq_none_iff.mp hfi
      have happ : ∀ v : SeenEntry, ((st.db ++ [(i, v)]).map Prod.fst).Nodup := by
        intro v
        rw [List.map_append]
        refine hN.append (by simp) ?_
        intro a ha hmem
        simp at hmem
        subst hmem
        exact hni ha
      by_cases hd : is_deferred_api e = true
      · rw [if_pos hd] at h
        injection h with h
        rw [← h]
        exact happ _
      · rw [if_neg hd] at h
        injection h with h
        rw [← h]
        exact happ _
    | some entry0 =>
      simp only [hfi] at h
      injection h with h
      rw [← h]
      show ((dbSet st.db i _).map Prod.fst).Nodup
      rw [dbSet, keys_dbModify]
      exact hN

theorem pass1_keys_nodup {now : Nat} (batch : List EventData) {st st' : Pass1State}
    (h : batch.foldlM (pass1Step now) st = Except.ok st')
    (hN : (st.db.map Prod.fst).Nodup) : (st'.db.map Prod.fst).Nodup := by
  induction batch generalizing st with
  | nil =>
    simp only [List.foldlM_nil] at h
    injection h with h
    rw [← h]
    exact hN
  | cons e rest ih =>
    rw [List.foldlM_cons, except_bind_ok] at h
    obtain ⟨stm, hstep, hrest⟩ := h
    exact ih hrest (pass1Step_keys_nodup hstep hN)

theorem process_inversion {batch : List EventData} {db : DB} {now : Nat} {r : ProcessResult}
    (h : process_event_changes batch db now = Except.ok r) :
    ∃ st1 st2, pass1 batch db now = Except.ok st1 ∧
      matchLoop now (sortTargets (classifyForMatching now st1.db).targets)
        (classifyForMatching now st1.db).awaiting
        { db := st1.db, consumed := [], pairs := [] } = Except.ok st2 ∧
      r = { db := pass3 st2.db st1.processed
            newlyAdded := st1.newlyAdded
            newlyDeferred := st1.newlyDeferred
            newlyRescheduled := st2.pairs } := by
  unfold process_event_changes at h
  cases h1 : pass1 batch db now with
  | error m => simp only [h1] at h; exact Except.noConfusion h
  | ok st1 =>
    simp only [h1] at h
    cases h2 : matchLoop now (sortTargets (classifyForMatching now st1.db).targets)
        (classifyForMatching now st1.db).awaiting
        { db := st1.db, consumed := [], pairs := [] } with
    | error m => simp only [matchLoop] at h h2; simp only [h2] at h; exact Except.noConfusion h
    | ok st2 =>
      simp only [matchLoop] at h h2
      simp only [h2] at h
      injection h with h
      exact ⟨st1, st2, rfl, h2, h.symm⟩

/-! ## C1 -/

/-- C1 amended: the grace-period expiry transition does not exist in the code
(it was explicitly removed). A `deferred_pending_match` entry whose alert
timestamp is older than the fixed 30-day matching window is merely excluded
from match attempts: provided the batch still reports the event as deferred
(or does not contain it), a reconciliation run leaves its lifecycle status
`deferred_pending_match` and both alert fields exactly unchanged — there is no
`DeferredNoMatch` status and no alert refresh. -/
theorem C1_no_grace_period_transition (batch : List EventData) (db : DB) (now k t : Nat)
    (entry : SeenEntry) (r : ProcessResult)
    (hN : (db.map Prod.fst).Nodup)
    (hk : dbFind db k = some entry)
    (hs : entry.current_status = "deferred_pending_match")
    (ht : entry.last_alert_timestamp = some t)
    (hold : t < thirtyDaysAgo now)
    (hb : ∀ e ∈ batch, e.eventId = some k → is_deferred_api e = true)
    (hr : process_event_changes batch db now = Except.ok r) :
    (dbFind r.db k).map stateView =
      some ("deferred_pending_match", entry.last_alert_type, some t) := by
  obtain ⟨st1, st2, h1, h2, hre⟩ := process_inversion hr
  obtain ⟨ent, hf1, hs1, ha1⟩ := pass1_preserves_dpm batch hk hs hb h1
  have hN1 : (st1.db.map Prod.fst).Nodup := pass1_keys_nodup batch h1 hN
  have hts1 : ent.last_alert_timestamp = some t := by
    have := congrArg Prod.snd ha1
    simpa [alertView, ht] using this
  have hlat1 : ent.last_alert_type = entry.last_alert_type := by
    have := congrArg Prod.fst ha1
    simpa [alertView] using this
  have hawait : ∀ dp ∈ (classifyForMatching now st1.db).awaiting, dp.1 ≠ k := by
    intro dp hdp hdk
    subst hdk
    rw [classify_eq_filter] at hdp
    obtain ⟨hmem, hcond⟩ := List.mem_filter.mp hdp
    have hde : dp.2 = ent := by
      have h' := dbFind_of_mem_nodup hN1 hmem
      rw [hf1] at h'
      exact (Option.some.inj h').symm
    unfold awaitingCond at hcond
    rw [hde] at hcond
    rw [hts1] at hcond
    simp at hcond
    exact absurd hcond.2 (Nat.not_le.mpr hold)
  have htarg : ∀ tp ∈ sortTargets (classifyForMatching now st1.db).targets, tp.1 ≠ k := by
    intro tp htp htk
    subst htk
    rw [mem_sortTargets, classify_eq_filter] at htp
    obtain ⟨hmem, hcond⟩ := List.mem_filter.mp htp
    have hte : tp.2 = ent := by
      have h' := dbFind_of_mem_nodup hN1 hmem
      rw [hf1] at h'
      exact (Option.some.inj h').symm
    unfold targetCond at hcond
    rw [hte] at hcond
    rw [hs1] at hcond
    simp at hcond
  have hf2 : dbFind st2.db k = some ent := by
    rw [matchLoop_frame _ h2 hawait htarg]
    exact hf1
  rw [hre]
  show (dbFind (pass3 st2.db st1.processed) k).map stateView = _
  rw [dbFind_pass3, hf2]
  show some (stateView (pass3Entry st1.processed k ent)) = _
  rw [stateView_pass3Entry]
  simp [stateView, hs1, hlat1, hts1]

/-- An event deferred 61 days ago and still reported deferred. -/
def c1now : Nat := daysFromCivil 2024 3 15 * minutesPerDay + 600

def c1old : Nat := c1now - 61 * minutesPerDay

def c1ev : EventData :=
  mkEvent (some 3) (some "B") (some "2024-02-01T00:00:00") none (some "x") (some "Deferred")

def c1entry : SeenEntry := bornDeferred c1ev c1old

def c1r : ProcessResult :=
  (process_event_changes [c1ev] [(3, c1entry)] c1now).toOption.getD ⟨[], [], [], []⟩

/-- C1 counterexample: the entry's deferral alert is 61 days old (beyond any
grace window) and no candidate exists, yet after the reconciliation run its
status is still `deferred_pending_match` and both alert fields are unchanged —
the claimed transition to `DeferredNoMatch` (a status that does not occur in
the code at all) never happens. -/
theorem C1_counterexample :
    ((process_event_changes [c1ev] [(3, c1entry)] c1now).toOption.map
      (fun r => (dbFind r.db 3).map stateView)) =
      some (some ("deferred_pending_match", "deferred", some c1old)) ∧
    c1old < thirtyDaysAgo c1now := by
  constructor
  · rfl
  · decide

theorem C1_witness :
    (dbFind c1r.db 3).map stateView =
      some ("deferred_pending_match", "deferred", some c1old) :=
  C1_no_grace_period_transition [c1ev] [(3, c1entry)] c1now 3 c1old c1entry c1r
    (by decide) (by rfl) (by rfl) (by rfl) (by decide) (by decide) (by rfl)

/-! ## C3 -/

/-- Amended candidate condition: exactly the events newly added this run that
are still active and carry a non-empty `EventDate` string. -/
def amendedTargetCond (now : Nat) (p : Nat × SeenEntry) : Bool :=
  p.2.last_processed_timestamp == now && p.2.current_status == "active" &&
  p.2.processing_tags.contains "newly_added" && optStrTruthy p.2.event_data.eventDate

/-- Amended deferred-input condition: `deferred_pending_match` entries with a
present alert timestamp inside the fixed 30-day window. -/
def amendedAwaitingCond (now : Nat) (p : Nat × SeenEntry) : Bool :=
  p.2.current_status == "deferred_pending_match" &&
  (match p.2.last_alert_timestamp with
   | none => false
   | some t => decide (thirtyDaysAgo now ≤ t))

theorem targetCond_eq_amended (now : Nat) (p : Nat × SeenEntry) :
    targetCond now p = amendedTargetCond now p := by
  unfold targetCond amendedTargetCond
  cases hlp : (p.2.last_processed_timestamp == now) <;>
    cases hac : (p.2.current_status == "active") <;>
    cases hdp : (p.2.current_status == "deferred_pending_match") <;>
    simp only [hlp, hac, hdp, Bool.false_or, Bool.true_or, Bool.or_false, Bool.or_true,
      Bool.true_and, Bool.false_and, Bool.and_true, Bool.and_false] <;>
    first
      | rfl
      | (exfalso
         rw [beq_iff_eq] at hac hdp
         rw [hac] at hdp
         exact absurd hdp (by decide))

theorem awaitingCond_eq_amended (now : Nat) (p : Nat × SeenEntry) :
    awaitingCond now p = amendedAwaitingCond now p := by
  unfold awaitingCond amendedAwaitingCond
  cases hdp : (p.2.current_status == "deferred_pending_match") with
  | false => simp [hdp]
  | true =>
    have h4 : p.2.current_status = "deferred_pending_match" := by rwa [beq_iff_eq] at hdp
    have hac : (p.2.current_status == "active") = false := by rw [h4]; decide
    simp [hdp, hac]

theorem findMatch_singleton_iff (dId : Nat) (dData : EventData) (dDt : Nat)
    (consumed : List Nat) (tKey tId : Nat) (tEntry : SeenEntry)
    (hid : tEntry.event_data.eventId = some tId)
    (hself : tId ≠ dId)
    (hcons : consumed.contains tId = false) :
    findMatch dId dData dDt consumed [(tKey, tEntry)] =
        Except.ok (some (tKey, tEntry, tId)) ↔
      (tEntry.event_data.eventBodyName = dData.eventBodyName ∧
       (∃ tDt, get_event_datetime tEntry.event_data = some tDt ∧ dDt < tDt) ∧
       stripComment dData.eventComment = stripComment tEntry.event_data.eventComment) := by
  unfold findMatch
  simp only [expectId, hid]
  rw [if_neg (by simp [hself]), if_neg (by rw [hcons]; exact Bool.false_ne_true)]
  by_cases h3 : tEntry.event_data.eventBodyName = dData.eventBodyName
  · cases hdt : get_event_datetime tEntry.event_data with
    | none => simp [h3, hdt, findMatch]
    | some tDt =>
      by_cases h4 : tDt ≤ dDt
      · simp [h3, hdt, h4, findMatch, Nat.not_lt.mpr h4]
      · by_cases h5 : stripComment dData.eventComment =
            stripComment tEntry.event_data.eventComment
        · simp [h3, hdt, h4, h5, findMatch, Nat.not_le.mp h4]
        · simp [h3, hdt, h4, h5, findMatch]
  · simp [h3, findMatch]

/-- C3 amended: the matching pass takes as inputs (1) the
`deferred_pending_match` entries whose `last_alert_timestamp` is present and
within the FIXED 30-day window (not a configurable grace window), and (2) as
candidates, exactly the events NEWLY ADDED THIS RUN that are active and carry
a date string (an unlinked active event from an earlier run is never a
candidate); a candidate with an id that is not the deferred entry itself and
not yet consumed is accepted iff its parsed date/time is strictly later than
the deferred entry's, the body names are equal, and the comments are equal
after None-coalescing and whitespace stripping. -/
theorem C3_matching_inputs_and_eligibility (now : Nat) (db : DB)
    (dId : Nat) (dData : EventData) (dDt : Nat) (consumed : List Nat)
    (tKey tId : Nat) (tEntry : SeenEntry)
    (hid : tEntry.event_data.eventId = some tId)
    (hself : tId ≠ dId)
    (hcons : consumed.contains tId = false) :
    (classifyForMatching now db).targets = db.filter (amendedTargetCond now) ∧
    (classifyForMatching now db).awaiting = db.filter (amendedAwaitingCond now) ∧
    (findMatch dId dData dDt consumed [(tKey, tEntry)] =
        Except.ok (some (tKey, tEntry, tId)) ↔
      (tEntry.event_data.eventBodyName = dData.eventBodyName ∧
       (∃ tDt, get_event_datetime tEntry.event_data = some tDt ∧ dDt < tDt) ∧
       stripComment dData.eventComment = stripComment tEntry.event_data.eventComment)) := by
  refine ⟨?_, ?_, findMatch_singleton_iff dId dData dDt consumed tKey tId tEntry hid hself hcons⟩
  · rw [classify_eq_filter]
    exact List.filter_congr (fun p _ => targetCond_eq_amended now p)
  · rw [classify_eq_filter]
    exact List.filter_congr (fun p _ => awaitingCond_eq_amended now p)

/-- Candidate notion written from the specification's words (§4.2): an event
with a concrete (parseable) date that is new or otherwise unlinked. -/
def spec_candidate (p : SeenEntry) : Bool :=
  (get_event_datetime p.event_data).isSome &&
  p.original_event_details_if_rescheduled.isNone

/-- Eligibility written from the specification's words: candidate date
strictly later than the deferred entry's, same body-name identity, comment
fields exactly equal. -/
def spec_eligible (d c : SeenEntry) : Bool :=
  (match get_event_datetime d.event_data, get_event_datetime c.event_data with
   | some a, some b => decide (a < b)
   | _, _ => false) &&
  c.event_data.eventBodyName == d.event_data.eventBodyName &&
  c.event_data.eventComment == d.event_data.eventComment

def c3now : Nat := daysFromCivil 2024 3 15 * minutesPerDay + 600

def c3dEv : EventData :=
  mkEvent (some 10) (some "B") (some "2024-02-01T00:00:00") none (some "c") (some "Deferred")

def c3oEv : EventData :=
  mkEvent (some 20) (some "B") (some "2024-04-01T00:00:00") none (some "c") (some "Final")

/-- The deferred entry: alert 10 days old, well inside the window. -/
def c3D : SeenEntry := bornDeferred c3dEv (c3now - 10 * minutesPerDay)

/-- The old unlinked active event from an earlier run. -/
def c3O : SeenEntry := init_seen_event_entry c3oEv (c3now - 20 * minutesPerDay)

def c3db : DB := [(10, c3D), (20, c3O)]

def c3batch : List EventData := [c3dEv, c3oEv]

def c3st1 : Pass1State :=
  (pass1 c3batch c3db c3now).toOption.getD ⟨[], [], [], []⟩

/-- C3 counterexample: event 20 is active, unlinked, has a concrete date
strictly later than deferred entry 10's, the same body and an identical
comment — by the claim it is a candidate and eligible, so the pass should see
it as an input. The code's candidate list is empty (event 20 was not newly
added this run) and the run produces no pairing. -/
theorem C3_counterexample :
    (classifyForMatching c3now c3st1.db).targets = [] ∧
    ((dbFind c3st1.db 20).map spec_candidate) = some true ∧
    ((dbFind c3st1.db 10).map (fun d => (dbFind c3st1.db 20).map (spec_eligible d))) =
      some (some true) ∧
    ((dbFind c3st1.db 10).map (fun d => d.current_status)) =
      some "deferred_pending_match" ∧
    ((dbFind c3st1.db 10).map
      (fun d => d.last_alert_timestamp.map (fun t => decide (thirtyDaysAgo c3now ≤ t)))) =
      some (some true) ∧
    ((process_event_changes c3batch c3db c3now).toOption.map
      (fun r => r.newlyRescheduled)) = some [] := by
  exact ⟨by decide, by decide, by decide, by decide, by decide, by decide⟩

theorem C3_witness :
    ((classifyForMatching c3now c3st1.db).targets =
        c3st1.db.filter (amendedTargetCond c3now) ∧
      (classifyForMatching c3now c3st1.db).awaiting =
        c3st1.db.filter (amendedAwaitingCond c3now) ∧
      (findMatch 10 c3dEv (daysFromCivil 2024 2 1 * minutesPerDay) [] [(20, c3O)] =
          Except.ok (some (20, c3O, 20)) ↔
        (c3O.event_data.eventBodyName = c3dEv.eventBodyName ∧
         (∃ tDt, get_event_datetime c3O.event_data = some tDt ∧
            daysFromCivil 2024 2 1 * minutesPerDay < tDt) ∧
         stripComment c3dEv.eventComment = stripComment c3O.event_data.eventComment))) :=
  C3_matching_inputs_and_eligibility c3now c3st1.db 10 c3dEv
    (daysFromCivil 2024 2 1 * minutesPerDay) [] 20 20 c3O
    (by rfl) (by decide) (by rfl)

/-! ## C4 -/

/-- The full acceptance test of the candidate scan for one deferred event:
carries an id, is not the deferred event itself, is not yet consumed, same
body, strictly later parsed datetime, equal stripped comment. -/
def acceptCond (dId : Nat) (dData : EventData) (dDt : Nat) (consumed : List Nat)
    (t : Nat × SeenEntry) : Bool :=
  match t.2.event_data.eventId with
  | none => false
  | some tId =>
    !(tId == dId) && !(consumed.contains tId) &&
    (t.2.event_data.eventBodyName == dData.eventBodyName) &&
    (match get_event_datetime t.2.event_data with
     | none => false
     | some tDt => decide (dDt < tDt)) &&
    (stripComment dData.eventComment == stripComment t.2.event_data.eventComment)

theorem findMatch_accepts {dId : Nat} {dData : EventData} {dDt : Nat} {consumed : List Nat}
    {l : List (Nat × SeenEntry)} {tKey : Nat} {tEntry : SeenEntry} {tId : Nat}
    (h : findMatch dId dData dDt consumed l = Except.ok (some (tKey, tEntry, tId))) :
    tEntry.event_data.eventId = some tId ∧
    acceptCond dId dData dDt consumed (tKey, tEntry) = true := by
  induction l with
  | nil => simp [findMatch] at h
  | cons t rest ih =>
    unfold findMatch at h
    cases hid : t.2.event_data.eventId with
    | none => simp [expectId, hid] at h
    | some i =>
      simp only [expectId, hid] at h
      by_cases h1 : (i == dId) = true
      · rw [if_pos h1] at h; exact ih h
      · rw [if_neg h1] at h
        by_cases h2 : consumed.contains i = true
        · rw [if_pos h2] at h; exact ih h
        · rw [if_neg h2] at h
          by_cases h3 : (t.2.event_data.eventBodyName != dData.eventBodyName) = true
          · rw [if_pos h3] at h; exact ih h
          · rw [if_neg h3] at h
            cases hdt : get_event_datetime t.2.event_data with
            | none => simp only [hdt] at h; exact ih h
            | some tDt =>
              simp only [hdt] at h
              by_cases h4 : tDt ≤ dDt
              · rw [if_pos h4] at h; exact ih h
              · rw [if_neg h4] at h
                by_cases h5 : stripComment dData.eventComment ≠
                    stripComment t.2.event_data.eventComment
                · rw [if_pos h5] at h; exact ih h
                · rw [if_neg h5] at h
                  injection h with h
                  injection h with h
                  obtain ⟨a, b⟩ := t
                  simp only [Prod.mk.injEq] at h
                  obtain ⟨ha, hb, hi⟩ := h
                  subst ha hb hi
                  refine ⟨hid, ?_⟩
                  have h1' : i ≠ dId := by simpa using h1
                  have h2' : i ∉ consumed := by simpa using h2
                  have hbody : (b.event_data.eventBodyName == dData.eventBodyName) = true := by
                    simpa [bne] using h3
                  have hid2 : b.event_data.eventId = some i := hid
                  simp [acceptCond, hid2, h1', h2', hbody, hdt,
                    Nat.not_le.mp h4, not_not.mp h5]

theorem findMatch_minimal {dId : Nat} {dData : EventData} {dDt : Nat} {consumed : List Nat}
    {l : List (Nat × SeenEntry)} {tKey : Nat} {tEntry : SeenEntry} {tId : Nat}
    (hs : l.Sorted (fun a b => targetSortKey a ≤ targetSortKey b))
    (h : findMatch dId dData dDt consumed l = Except.ok (some (tKey, tEntry, tId))) :
    ∀ t' ∈ l, acceptCond dId dData dDt consumed t' = true →
      targetSortKey (tKey, tEntry) ≤ targetSortKey t' := by
  induction l with
  | nil => simp [findMatch] at h
  | cons t rest ih =>
    rw [List.sorted_cons] at hs
    obtain ⟨hhead, htail⟩ := hs
    unfold findMatch at h
    cases hid : t.2.event_data.eventId with
    | none => simp [expectId, hid] at h
    | some i =>
      simp only [expectId, hid] at h
      have skip : findMatch dId dData dDt consumed rest =
            Except.ok (some (tKey, tEntry, tId)) →
          ¬(acceptCond dId dData dDt consumed t = true) →
          ∀ t' ∈ t :: rest, acceptCond dId dData dDt consumed t' = true →
            targetSortKey (tKey, tEntry) ≤ targetSortKey t' := by
        intro hrec hna t' ht' hacc
        rcases List.mem_cons.mp ht' with rfl | ht'
        · exact absurd hacc hna
        · exact ih htail hrec t' ht' hacc
      by_cases h1 : (i == dId) = true
      · rw [if_pos h1] at h
        refine skip h (fun hacc => ?_)
        unfold acceptCond at hacc
        simp only [hid, Bool.and_eq_true, Bool.not_eq_true'] at hacc
        have hx := hacc.1.1.1.1
        rw [h1] at hx
        exact absurd hx (by decide)
      · rw [if_neg h1] at h
        by_cases h2 : consumed.contains i = true
        · rw [if_pos h2] at h
          refine skip h (fun hacc => ?_)
          unfold acceptCond at hacc
          simp only [hid, Bool.and_eq_true, Bool.not_eq_true'] at hacc
          have hx := hacc.1.1.1.2
          rw [h2] at hx
          exact absurd hx (by decide)
        · rw [if_neg h2] at h
          by_cases h3 : (t.2.event_data.eventBodyName != dData.eventBodyName) = true
          · rw [if_pos h3] at h
            refine skip h (fun hacc => ?_)
            unfold acceptCond at hacc
            simp only [hid, Bool.and_eq_true, Bool.not_eq_true'] at hacc
            have hx := hacc.1.1.2
            simp [bne, hx] at h3
          · rw [if_neg h3] at h
            cases hdt : get_event_datetime t.2.event_data with
            | none =>
              simp only [hdt] at h
              refine skip h (fun hacc => ?_)
              unfold acceptCond at hacc
              simp only [hid, hdt, Bool.and_eq_true, Bool.not_eq_true'] at hacc
              exact Bool.false_ne_true hacc.1.2
            | some tDt =>
              simp only [hdt] at h
              by_cases h4 : tDt ≤ dDt
              · rw [if_pos h4] at h
                refine skip h (fun hacc => ?_)
                unfold acceptCond at hacc
                simp only [hid, hdt, Bool.and_eq_true, Bool.not_eq_true'] at hacc
                exact absurd (of_decide_eq_true hacc.1.2) (Nat.not_lt.mpr h4)
              · rw [if_neg h4] at h
                by_cases h5 : stripComment dData.eventComment ≠
                    stripComment t.2.event_data.eventComment
                · rw [if_pos h5] at h
                  refine skip h (fun hacc => ?_)
                  unfold acceptCond at hacc
                  simp only [hid, hdt, Bool.and_eq_true, Bool.not_eq_true',
                    beq_iff_eq] at hacc
                  exact absurd hacc.2 h5
                · rw [if_neg h5] at h
                  injection h with h
                  injection h with h
                  obtain ⟨a, b⟩ := t
                  simp only [Prod.mk.injEq] at h
                  obtain ⟨ha, hb, hi⟩ := h
                  subst ha hb hi
                  intro t' ht' hacc
                  rcases List.mem_cons.mp ht' with rfl | ht'
                  · exact Nat.le_refl _
                  · exact hhead t' ht'

theorem matchLoopStep_pairs {now : Nat} {targets : List (Nat × SeenEntry)}
    {st st' : MatchState} {d : Nat × SeenEntry}
    (h : matchLoopStep now targets st d = Except.ok st') :
    (st'.pairs = st.pairs ∧ st'.consumed = st.consumed) ∨
    (∃ dId tKey tEntry tId,
      d.2.event_data.eventId = some dId ∧
      findMatch dId d.2.event_data ((get_event_datetime d.2.event_data).getD 0)
        st.consumed targets = Except.ok (some (tKey, tEntry, tId)) ∧
      st'.pairs = st.pairs ++ [{ deferred_event_id := dId
                                 rescheduled_to_event_id := tId
                                 deferred_event_data_at_deferral := d.2.event_data
                                 rescheduled_event_data := tEntry.event_data }] ∧
      st'.consumed = st.consumed ++ [tId]) := by
  unfold matchLoopStep at h
  cases hid : d.2.event_data.eventId with
  | none => simp [expectId, hid] at h
  | some dId =>
    simp only [expectId, hid] at h
    cases hdt : get_event_datetime d.2.event_data with
    | none =>
      simp only [hdt] at h
      injection h with h
      rw [← h]
      exact Or.inl ⟨rfl, rfl⟩
    | some dDt =>
      simp only [hdt] at h
      cases hf : findMatch dId d.2.event_data dDt st.consumed targets with
      | error m => simp only [hf] at h; exact Except.noConfusion h
      | ok o =>
        simp only [hf] at h
        cases o with
        | none =>
          injection h with h
          rw [← h]
          exact Or.inl ⟨rfl, rfl⟩
        | some trip =>
          obtain ⟨tKey, tEntry, tId⟩ := trip
          injection h with h
          rw [← h]
          refine Or.inr ⟨dId, tKey, tEntry, tId, rfl, ?_, rfl, rfl⟩
          simpa using hf

theorem matchLoop_consumed_invariants {now : Nat} {targets : List (Nat × SeenEntry)}
    (awaiting : List (Nat × SeenEntry)) {st st' : MatchState}
    (h : matchLoop now targets awaiting st = Except.ok st')
    (hc : st.consumed.Nodup)
    (hp : ∀ i ∈ st.pairs.map (fun p => p.rescheduled_to_event_id), i ∈ st.consumed)
    (hq : (st.pairs.map (fun p => p.rescheduled_to_event_id)).Nodup) :
    st'.consumed.Nodup ∧
    (∀ i ∈ st'.pairs.map (fun p => p.rescheduled_to_event_id), i ∈ st'.consumed) ∧
    (st'.pairs.map (fun p => p.rescheduled_to_event_id)).Nodup := by
  induction awaiting generalizing st with
  | nil =>
    unfold matchLoop at h
    simp only [List.foldlM_nil] at h
    injection h with h
    rw [← h]
    exact ⟨hc, hp, hq⟩
  | cons d rest ih =>
    unfold matchLoop at h ih
    rw [List.foldlM_cons, except_bind_ok] at h
    obtain ⟨st1, hstep, hrest⟩ := h
    rcases matchLoopStep_pairs hstep with ⟨hpe, hce⟩ | ⟨dId, tKey, tEntry, tId, _, hf, hpe, hce⟩
    · exact ih hrest (hce ▸ hc) (by rw [hpe, hce]; exact hp) (hpe ▸ hq)
    · have hnotin : tId ∉ st.consumed := by
        have hacc := (findMatch_accepts hf).2
        unfold acceptCond at hacc
        rw [(findMatch_accepts hf).1] at hacc
        simp only [Bool.and_eq_true, Bool.not_eq_true'] at hacc
        have hx := hacc.1.1.1.2
        intro hmem
        simp at hx
        exact hx hmem
      refine ih hrest ?_ ?_ ?_
      · rw [hce]
        simpa [List.nodup_append] using ⟨hc, hnotin⟩
      · rw [hpe, hce]
        intro i hi
        simp only [List.map_append, List.mem_append] at hi
        rcases hi with hi | hi
        · exact List.mem_append_left _ (hp i hi)
        · simp at hi
          simp [hi]
      · rw [hpe]
        simp only [List.map_append, List.map_cons, List.map_nil]
        rw [List.nodup_append]
        refine ⟨hq, by simp, ?_⟩
        intro a ha
        simp only [List.mem_singleton]
        intro he
        subst he
        exact hnotin (hp a ha)

theorem matchLoop_deferred_sublist {now : Nat} {targets : List (Nat × SeenEntry)}
    (awaiting : List (Nat × SeenEntry)) {st st' : MatchState}
    (h : matchLoop now targets awaiting st = Except.ok st') :
    ∃ l, st'.pairs.map (fun p => p.deferred_event_id) =
        st.pairs.map (fun p => p.deferred_event_id) ++ l ∧
      l.Sublist (awaiting.filterMap (fun d => d.2.event_data.eventId)) := by
  induction awaiting generalizing st with
  | nil =>
    unfold matchLoop at h
    simp only [List.foldlM_nil] at h
    injection h with h
    rw [← h]
    exact ⟨[], by simp, List.Sublist.refl _⟩
  | cons d rest ih =>
    unfold matchLoop at h ih
    rw [List.foldlM_cons, except_bind_ok] at h
    obtain ⟨st1, hstep, hrest⟩ := h
    have hida : d.2.event_data.eventId.isSome := by
      unfold matchLoopStep at hstep
      cases hid : d.2.event_data.eventId with
      | none => simp [expectId, hid] at hstep
      | some i => simp [hid]
    obtain ⟨dId, hid⟩ := Option.isSome_iff_exists.mp hida
    have hfm : (d :: rest).filterMap (fun d' => d'.2.event_data.eventId) =
        dId :: rest.filterMap (fun d' => d'.2.event_data.eventId) := by
      simp [List.filterMap_cons, hid]
    rcases matchLoopStep_pairs hstep with ⟨hpe, _⟩ | ⟨dId', tKey, tEntry, tId, hid', _, hpe, _⟩
    · obtain ⟨l, hl, hsub⟩ := ih hrest
      rw [hpe] at hl
      exact ⟨l, hl, hfm ▸ hsub.cons dId⟩
    · obtain ⟨l, hl, hsub⟩ := ih hrest
      rw [hpe] at hl
      have hdd : dId' = dId := by rw [hid] at hid'; exact (Option.some.inj hid').symm
      subst hdd
      refine ⟨dId' :: l, ?_, ?_⟩
      · simpa using hl
      · rw [hfm]
        exact hsub.cons₂ dId'

/-- C4: (a) each candidate is consumed by at most one deferred entry (the
`rescheduled_to` ids of the produced pairs are distinct), (b) each deferred
entry links to at most one successor (the deferred ids are distinct), and
(c) whenever the candidate scan selects a candidate from the (sorted) target
list, the selection passes the acceptance test and is earliest-dated among
all not-yet-consumed eligible candidates. -/
theorem C4_selection_and_uniqueness (now : Nat) (db0 : DB)
    (targets awaiting : List (Nat × SeenEntry)) (st' : MatchState)
    (hs : targets.Sorted (fun a b => targetSortKey a ≤ targetSortKey b))
    (hawN : (awaiting.filterMap (fun d => d.2.event_data.eventId)).Nodup)
    (h : matchLoop now targets awaiting { db := db0, consumed := [], pairs := [] } =
      Except.ok st') :
    (st'.pairs.map (fun p => p.rescheduled_to_event_id)).Nodup ∧
    (st'.pairs.map (fun p => p.deferred_event_id)).Nodup ∧
    (∀ dId dData dDt consumed tKey tEntry tId,
      findMatch dId dData dDt consumed targets = Except.ok (some (tKey, tEntry, tId)) →
        acceptCond dId dData dDt consumed (tKey, tEntry) = true ∧
        ∀ t' ∈ targets, acceptCond dId dData dDt consumed t' = true →
          targetSortKey (tKey, tEntry) ≤ targetSortKey t') := by
  refine ⟨?_, ?_, ?_⟩
  · exact (matchLoop_consumed_invariants awaiting h (by simp) (by simp) (by simp)).2.2
  · obtain ⟨l, hl, hsub⟩ := matchLoop_deferred_sublist awaiting h
    rw [hl]
    simpa using hsub.nodup hawN
  · intro dId dData dDt consumed tKey tEntry tId hf
    exact ⟨(findMatch_accepts hf).2, findMatch_minimal hs hf⟩

def c4st : MatchState :=
  (matchLoop c3now [(20, c3O)] [(10, c3D)]
    { db := c3db, consumed := [], pairs := [] }).toOption.getD ⟨[], [], []⟩

theorem C4_witness :
    (c4st.pairs.map (fun p => p.rescheduled_to_event_id)).Nodup ∧
    (c4st.pairs.map (fun p => p.deferred_event_id)).Nodup ∧
    (∀ dId dData dDt consumed tKey tEntry tId,
      findMatch dId dData dDt consumed [(20, c3O)] = Except.ok (some (tKey, tEntry, tId)) →
        acceptCond dId dData dDt consumed (tKey, tEntry) = true ∧
        ∀ t' ∈ [(20, c3O)], acceptCond dId dData dDt consumed t' = true →
          targetSortKey (tKey, tEntry) ≤ targetSortKey t') :=
  C4_selection_and_uniqueness c3now c3db [(20, c3O)] [(10, c3D)] c4st
    (by decide) (by decide) (by rfl)

/-! ## Well-formedness and totality of the reconciliation -/

/-- Well-formedness of the persisted state: every stored entry's snapshot
carries the `EventId` equal to its key (true of every state the program
writes, since keys are `str(EventId)`). -/
def dbWf (db : DB) : Prop :=
  ∀ p ∈ db, p.2.event_data.eventId = some p.1

theorem updateExistingEntry_eventId {now : Nat} {e : EventData} {entry : SeenEntry} :
    (updateExistingEntry now e entry).1.event_data.eventId = e.eventId ∨
    (updateExistingEntry now e entry).1.event_data.eventId = entry.event_data.eventId := by
  by_cases c1 : check_significant_event_data_change e entry.event_data = true
  · left
    by_cases c2 : (is_deferred_api e && entry.current_status == "active") = true
    · simp [updateExistingEntry, c1, c2]
    · by_cases c3 : (!is_deferred_api e && statusIsDeferred entry.current_status) = true <;>
        simp [updateExistingEntry, c1, c2, c3]
  · right
    by_cases c2 : (is_deferred_api e && entry.current_status == "active") = true <;>
      simp [updateExistingEntry, c1, c2]

theorem dbWf_dbSet {db : DB} {k : Nat} {v : SeenEntry}
    (hwf : dbWf db) (hv : v.event_data.eventId = some k) : dbWf (dbSet db k v) := by
  intro p hp
  rw [dbSet, dbModify] at hp
  obtain ⟨q, hq, rfl⟩ := List.mem_map.mp hp
  by_cases hqk : (q.1 == k) = true
  · have : q.1 = k := beq_iff_eq.mp hqk
    simp [hqk, hv, this]
  · simp [hqk]
    exact hwf q hq

theorem dbWf_mapEntries_keep {db : DB} {g : Nat → SeenEntry → SeenEntry}
    (hwf : dbWf db) (hg : ∀ k v, (g k v).event_data = v.event_data) :
    dbWf (db.map (fun p => (p.1, g p.1 p.2))) := by
  intro p hp
  obtain ⟨q, hq, rfl⟩ := List.mem_map.mp hp
  simpa [hg] using hwf q hq

theorem dbWf_dbModify_keep {db : DB} {k : Nat} {f : SeenEntry → SeenEntry}
    (hwf : dbWf db) (hf : ∀ v, (f v).event_data = v.event_data) :
    dbWf (dbModify db k f) := by
  intro p hp
  rw [dbModify] at hp
  obtain ⟨q, hq, rfl⟩ := List.mem_map.mp hp
  by_cases hk : (q.1 == k) = true
  · simpa [hk, hf] using hwf q hq
  · simpa [hk] using hwf q hq

theorem dbWf_append {db : DB} {k : Nat} {v : SeenEntry}
    (hwf : dbWf db) (hv : v.event_data.eventId = some k) : dbWf (db ++ [(k, v)]) := by
  intro p hp
  rcases List.mem_append.mp hp with hp | hp
  · exact hwf p hp
  · simp at hp
    rw [hp]
    exact hv

theorem pass1Step_wf {now : Nat} {st stm : Pass1State} {e : EventData}
    (h : pass1Step now st e = Except.ok stm) (hwf : dbWf st.db) : dbWf stm.db := by
  unfold pass1Step at h
  cases hid : e.eventId with
  | none => simp only [hid] at h; exact Except.noConfusion h
  | some i =>
    simp only [hid] at h
    cases hfi : dbFind st.db i with
    | none =>
      simp only [hfi] at h
      by_cases hd : is_deferred_api e = true
      · rw [if_pos hd] at h
        injection h with h
        rw [← h]
        exact dbWf_append hwf hid
      · rw [if_neg hd] at h
        injection h with h
        rw [← h]
        exact dbWf_append hwf hid
    | some entry0 =>
      simp only [hfi] at h
      injection h with h
      rw [← h]
      refine dbWf_dbSet hwf ?_
      rcases @updateExistingEntry_eventId now e entry0 with hcase | hcase
      · rw [hcase, hid]
      · rw [hcase]
        exact hwf (i, entry0) (mem_of_dbFind_some hfi)

theorem pass1_fold_wf {now : Nat} (batch : List EventData) {st st' : Pass1State}
    (h : batch.foldlM (pass1Step now) st = Except.ok st')
    (hwf : dbWf st.db) : dbWf st'.db := by
  induction batch generalizing st with
  | nil =>
    simp only [List.foldlM_nil] at h
    injection h with h
    rw [← h]
    exact hwf
  | cons e rest ih =>
    rw [List.foldlM_cons, except_bind_ok] at h
    obtain ⟨stm, hstep, hrest⟩ := h
    exact ih hrest (pass1Step_wf hstep hwf)

theorem matchLoop_wf {now : Nat} {targets : List (Nat × SeenEntry)}
    (awaiting : List (Nat × SeenEntry)) {st st' : MatchState}
    (h : matchLoop now targets awaiting st = Except.ok st')
    (hwf : dbWf st.db) : dbWf st'.db := by
  induction awaiting generalizing st with
  | nil =>
    unfold matchLoop at h
    simp only [List.foldlM_nil] at h
    injection h with h
    rw [← h]
    exact hwf
  | cons d rest ih =>
    unfold matchLoop at h ih
    rw [List.foldlM_cons, except_bind_ok] at h
    obtain ⟨st1, hstep, hrest⟩ := h
    refine ih hrest ?_
    unfold matchLoopStep at hstep
    cases hid : d.2.event_data.eventId with
    | none => simp [expectId, hid] at hstep
    | some dId =>
      simp only [expectId, hid] at hstep
      cases hdt : get_event_datetime d.2.event_data with
      | none =>
        simp only [hdt] at hstep
        injection hstep with hstep
        rw [← hstep]
        exact hwf
      | some dDt =>
        simp only [hdt] at hstep
        cases hf : findMatch dId d.2.event_data dDt st.consumed targets with
        | error m => simp only [hf] at hstep; exact Except.noConfusion hstep
        | ok o =>
          simp only [hf] at hstep
          cases o with
          | none =>
            injection hstep with hstep
            rw [← hstep]
            exact hwf
          | some trip =>
            obtain ⟨tKey, tEntry, tId⟩ := trip
            injection hstep with hstep
            rw [← hstep]
            exact dbWf_dbModify_keep (dbWf_dbModify_keep hwf (fun v => rfl)) (fun v => rfl)

theorem pass3_wf {db : DB} {processed : List Nat} (hwf : dbWf db) :
    dbWf (pass3 db processed) := by
  refine dbWf_mapEntries_keep hwf ?_
  intro k v
  unfold pass3Entry
  split_ifs <;> rfl

theorem pass1_fold_ok {now : Nat} (batch : List EventData) (st : Pass1State)
    (hb : ∀ e ∈ batch, e.eventId.isSome) :
    ∃ st', batch.foldlM (pass1Step now) st = Except.ok st' := by
  induction batch generalizing st with
  | nil => exact ⟨st, by simp [List.foldlM_nil]; rfl⟩
  | cons e rest ih =>
    obtain ⟨i, hid⟩ := Option.isSome_iff_exists.mp (hb e (List.mem_cons_self e rest))
    have hstep : ∃ stm, pass1Step now st e = Except.ok stm := by
      unfold pass1Step
      simp only [hid]
      cases dbFind st.db i with
      | none =>
        by_cases hd : is_deferred_api e = true
        · rw [if_pos hd]; exact ⟨_, rfl⟩
        · rw [if_neg hd]; exact ⟨_, rfl⟩
      | some entry0 => exact ⟨_, rfl⟩
    obtain ⟨stm, hsm⟩ := hstep
    obtain ⟨st', h'⟩ := ih stm (fun e' he' => hb e' (List.mem_cons_of_mem e he'))
    refine ⟨st', ?_⟩
    rw [List.foldlM_cons, hsm]
    simpa [Bind.bind, Except.bind] using h'

theorem findMatch_ok (dId : Nat) (dData : EventData) (dDt : Nat) (consumed : List Nat)
    (l : List (Nat × SeenEntry))
    (hl : ∀ t ∈ l, t.2.event_data.eventId.isSome) :
    ∃ o, findMatch dId dData dDt consumed l = Except.ok o := by
  induction l with
  | nil => exact ⟨none, rfl⟩
  | cons t rest ih =>
    obtain ⟨i, hid⟩ := Option.isSome_iff_exists.mp (hl t (List.mem_cons_self t rest))
    obtain ⟨o, ho⟩ := ih (fun t' ht' => hl t' (List.mem_cons_of_mem t ht'))
    unfold findMatch
    simp only [expectId, hid]
    repeat' split
    all_goals first
      | exact ⟨o, ho⟩
      | exact ⟨_, rfl⟩

theorem matchLoop_ok (now : Nat) (targets : List (Nat × SeenEntry))
    (awaiting : List (Nat × SeenEntry)) (st : MatchState)
    (ha : ∀ d ∈ awaiting, d.2.event_data.eventId.isSome)
    (ht : ∀ t ∈ targets, t.2.event_data.eventId.isSome) :
    ∃ st', matchLoop now targets awaiting st = Except.ok st' := by
  induction awaiting generalizing st with
  | nil => exact ⟨st, by unfold matchLoop; simp [List.foldlM_nil]; rfl⟩
  | cons d rest ih =>
    obtain ⟨i, hid⟩ := Option.isSome_iff_exists.mp (ha d (List.mem_cons_self d rest))
    have hstep : ∃ st1, matchLoopStep now targets st d = Except.ok st1 := by
      unfold matchLoopStep
      simp only [expectId, hid]
      split
      · exact ⟨st, rfl⟩
      · rename_i dDt hdt2
        obtain ⟨o, ho⟩ := findMatch_ok i d.2.event_data dDt st.consumed targets ht
        rw [ho]
        cases o with
        | none => exact ⟨st, rfl⟩
        | some trip =>
          obtain ⟨tKey, tEntry, tId⟩ := trip
          exact ⟨_, rfl⟩
    obtain ⟨st1, hsm⟩ := hstep
    obtain ⟨st', h'⟩ := ih st1 (fun d' hd' => ha d' (List.mem_cons_of_mem d hd'))
    refine ⟨st', ?_⟩
    unfold matchLoop at h' ⊢
    rw [List.foldlM_cons, hsm]
    simpa [Bind.bind, Except.bind] using h'

theorem process_ok (batch : List EventData) (db : DB) (now : Nat)
    (hb : ∀ e ∈ batch, e.eventId.isSome)
    (hwf : dbWf db) :
    ∃ r, process_event_changes batch db now = Except.ok r ∧ dbWf r.db := by
  obtain ⟨st1, h1⟩ := pass1_fold_ok batch
    { db := db, processed := [], newlyAdded := [], newlyDeferred := [] } hb
  have hwf1 : dbWf st1.db := pass1_fold_wf batch h1 hwf
  have hawait : ∀ d ∈ (classifyForMatching now st1.db).awaiting,
      d.2.event_data.eventId.isSome := by
    intro d hd
    rw [classify_eq_filter] at hd
    have := hwf1 d (List.mem_filter.mp hd).1
    simp [this]
  have htarg : ∀ t ∈ sortTargets (classifyForMatching now st1.db).targets,
      t.2.event_data.eventId.isSome := by
    intro t htp
    rw [mem_sortTargets, classify_eq_filter] at htp
    have := hwf1 t (List.mem_filter.mp htp).1
    simp [this]
  obtain ⟨st2, h2⟩ := matchLoop_ok now (sortTargets (classifyForMatching now st1.db).targets)
    (classifyForMatching now st1.db).awaiting
    { db := st1.db, consumed := [], pairs := [] } hawait htarg
  refine ⟨{ db := pass3 st2.db st1.processed
            newlyAdded := st1.newlyAdded
            newlyDeferred := st1.newlyDeferred
            newlyRescheduled := st2.pairs }, ?_, ?_⟩
  · unfold process_event_changes
    rw [show pass1 batch db now = Except.ok st1 from h1]
    simp only []
    simp only [h2]
  · exact pass3_wf (matchLoop_wf _ h2 hwf1)

/-! ## C9 -/

theorem pass1Step_mono {now : Nat} {st stm : Pass1State} {e : EventData} {k : Nat}
    (h : pass1Step now st e = Except.ok stm)
    (hk : (dbFind st.db k).isSome) : (dbFind stm.db k).isSome := by
  obtain ⟨v, hv⟩ := Option.isSome_iff_exists.mp hk
  unfold pass1Step at h
  cases hid : e.eventId with
  | none => simp only [hid] at h; exact Except.noConfusion h
  | some i =>
    simp only [hid] at h
    cases hfi : dbFind st.db i with
    | none =>
      simp only [hfi] at h
      by_cases hd : is_deferred_api e = true
      · rw [if_pos hd] at h
        injection h with h
        rw [← h]
        simp [dbFind_append_of_some _ hv]
      · rw [if_neg hd] at h
        injection h with h
        rw [← h]
        simp [dbFind_append_of_some _ hv]
    | some entry0 =>
      simp only [hfi] at h
      injection h with h
      rw [← h]
      show (dbFind (dbSet st.db i _) k).isSome
      rw [dbSet, dbFind_dbModify]
      by_cases hik : k = i <;> simp [hik, hv]
      rw [hik] at hv
      simp [hfi] at hv ⊢

theorem pass1Step_self {now : Nat} {st stm : Pass1State} {e : EventData} {i : Nat}
    (h : pass1Step now st e = Except.ok stm) (hid : e.eventId = some i) :
    (dbFind stm.db i).isSome := by
  unfold pass1Step at h
  simp only [hid] at h
  cases hfi : dbFind st.db i with
  | none =>
    simp only [hfi] at h
    have happ : ∀ v : SeenEntry, (dbFind (st.db ++ [(i, v)]) i).isSome := by
      intro v
      rw [dbFind_append_of_none _ hfi]
      simp [dbFind]
    by_cases hd : is_deferred_api e = true
    · rw [if_pos hd] at h
      injection h with h
      rw [← h]
      exact happ _
    · rw [if_neg hd] at h
      injection h with h
      rw [← h]
      exact happ _
  | some entry0 =>
    simp only [hfi] at h
    injection h with h
    rw [← h]
    show (dbFind (dbSet st.db i _) i).isSome
    rw [dbSet, dbFind_dbModify]
    simp [hfi]

theorem pass1_fold_mem {now : Nat} (batch : List EventData) {st st' : Pass1State}
    (h : batch.foldlM (pass1Step now) st = Except.ok st') :
    ∀ e ∈ batch, ∀ i, e.eventId = some i → (dbFind st'.db i).isSome := by
  induction batch generalizing st with
  | nil => intro e he; simp at he
  | cons e0 rest ih =>
    rw [List.foldlM_cons, except_bind_ok] at h
    obtain ⟨stm, hstep, hrest⟩ := h
    intro e he i hid
    rcases List.mem_cons.mp he with rfl | he
    · -- carried through the rest of the fold
      have hm : (dbFind stm.db i).isSome := pass1Step_self hstep hid
      clear ih hstep he hid
      induction rest generalizing stm with
      | nil =>
        simp only [List.foldlM_nil] at hrest
        injection hrest with hrest
        rw [← hrest]
        exact hm
      | cons e1 rest1 ih1 =>
        rw [List.foldlM_cons, except_bind_ok] at hrest
        obtain ⟨stm1, hstep1, hrest1⟩ := hrest
        exact ih1 _ hrest1 (pass1Step_mono hstep1 hm)
    · exact ih hrest e he i hid

theorem matchLoop_isSome {now : Nat} {targets : List (Nat × SeenEntry)}
    (awaiting : List (Nat × SeenEntry)) {st st' : MatchState}
    (h : matchLoop now targets awaiting st = Except.ok st') (k : Nat) :
    (dbFind st'.db k).isSome = (dbFind st.db k).isSome := by
  have := matchLoop_alertView awaiting h k
  have h1 := congrArg Option.isSome this
  simpa using h1

theorem mem_windows_fst {now : Nat} {db : DB} {it : UpdateItem} :
    it ∈ (upcomingAndWindows now db).2.1 → ∃ q ∈ db, it ∈ (windowContribution now q.2).1 := by
  induction db with
  | nil => simp [upcomingAndWindows]
  | cons p rest ih =>
    rw [upcomingAndWindows]
    intro h
    rcases List.mem_append.mp h with h | h
    · exact ⟨p, List.mem_cons_self p rest, h⟩
    · obtain ⟨q, hq, hc⟩ := ih h
      exact ⟨q, List.mem_cons_of_mem p hq, hc⟩

theorem mem_windows_snd {now : Nat} {db : DB} {it : UpdateItem} :
    it ∈ (upcomingAndWindows now db).2.2 → ∃ q ∈ db, it ∈ (windowContribution now q.2).2 := by
  induction db with
  | nil => simp [upcomingAndWindows]
  | cons p rest ih =>
    rw [upcomingAndWindows]
    intro h
    rcases List.mem_append.mp h with h | h
    · exact ⟨p, List.mem_cons_self p rest, h⟩
    · obtain ⟨q, hq, hc⟩ := ih h
      exact ⟨q, List.mem_cons_of_mem p hq, hc⟩

theorem windowContribution_new_dt {now : Nat} {entry : SeenEntry} {it : UpdateItem}
    (h : it ∈ (windowContribution now entry).1 ∨ it ∈ (windowContribution now entry).2)
    (hty : it.type = "new") :
    (get_event_datetime it.data.event_data).isSome := by
  unfold windowContribution at h
  by_cases hg : (entry.last_alert_type != "" && entry.last_alert_timestamp.isSome) = true
  · rw [if_pos hg] at h
    by_cases hin : windowInclude now entry = true
    · rw [if_pos hin] at h
      have hit : it = windowItem entry := by
        rcases h with h | h
        · by_cases h7 : now - entry.last_alert_timestamp.getD 0 ≤ 7 * minutesPerDay
          · rw [if_pos h7] at h; simpa using h
          · rw [if_neg h7] at h; simp at h
        · by_cases h30 : now - entry.last_alert_timestamp.getD 0 ≤ 30 * minutesPerDay
          · rw [if_pos h30] at h; simpa using h
          · rw [if_neg h30] at h; simp at h
      subst hit
      have hlat : entry.last_alert_type = "new" := hty
      unfold windowInclude at hin
      rw [if_pos (by simp [hlat])] at hin
      show (get_event_datetime entry.event_data).isSome
      cases hdt : get_event_datetime entry.event_data with
      | none => rw [hdt] at hin; cases hin
      | some dt => rfl
    · rw [if_neg hin] at h
      rcases h with h | h <;> simp at h
  · rw [if_neg hg] at h
    rcases h with h | h <;> simp at h

/-- C9 amended: a record with an unparseable date (or other missing optional
fields) does not abort the batch — whenever every raw record carries an
`EventId` and the stored state is well-formed, the whole reconciliation
completes with a single clean result, every record of the batch is tracked in
the final state, and entries whose date cannot be parsed are excluded from
the Upcoming feed and from the date-gated `"new"` alert windows. (A record
missing `EventId`, however, aborts the entire batch with a `KeyError` —
see the counterexample.) -/
theorem C9_malformed_date_isolated (batch : List EventData) (db : DB) (now : Nat)
    (hb : ∀ e ∈ batch, e.eventId.isSome)
    (hwf : dbWf db) :
    ∃ r, process_event_changes batch db now = Except.ok r ∧
      (∀ e ∈ batch, ∀ i, e.eventId = some i → (dbFind r.db i).isSome) ∧
      (∀ nA nD prs out,
        generate_output_for_webpage r.db nA nD prs now = Except.ok out →
        (∀ u ∈ out.upcoming_hearings, (get_event_datetime u.entry.event_data).isSome) ∧
        (∀ it ∈ out.updates_last_7_days, it.type = "new" →
          (get_event_datetime it.data.event_data).isSome) ∧
        (∀ it ∈ out.updates_last_30_days, it.type = "new" →
          (get_event_datetime it.data.event_data).isSome)) := by
  obtain ⟨r, hr, _⟩ := process_ok batch db now hb hwf
  refine ⟨r, hr, ?_, ?_⟩
  · obtain ⟨st1, st2, h1, h2, hre⟩ := process_inversion hr
    intro e he i hid
    have hm1 : (dbFind st1.db i).isSome := pass1_fold_mem batch h1 e he i hid
    have hm2 : (dbFind st2.db i).isSome := by
      rw [matchLoop_isSome _ h2 i]
      exact hm1
    rw [hre]
    show (dbFind (pass3 st2.db st1.processed) i).isSome
    rw [dbFind_pass3]
    simpa using hm2
  · intro nA nD prs out hout
    obtain ⟨hup, h7, h30⟩ := generate_ok_parts hout
    refine ⟨?_, ?_, ?_⟩
    · intro u hu
      rw [hup, mem_sortUpcoming, mem_upcomingAndWindows_fst] at hu
      obtain ⟨q, _, hc⟩ := hu
      obtain ⟨_, ⟨dt, hdt, _⟩, hueq⟩ := mem_upcomingContribution.mp hc
      subst hueq
      simp [hdt]
    · intro it hit hty
      rw [h7] at hit
      unfold sortUpdatesDesc at hit
      rw [List.mem_insertionSort] at hit
      obtain ⟨q, _, hc⟩ := mem_windows_fst hit
      exact windowContribution_new_dt (Or.inl hc) hty
    · intro it hit hty
      rw [h30] at hit
      unfold sortUpdatesDesc at hit
      rw [List.mem_insertionSort] at hit
      obtain ⟨q, _, hc⟩ := mem_windows_snd hit
      exact windowContribution_new_dt (Or.inr hc) hty

/-- A well-formed record and one missing its `EventId`. -/
def c9good : EventData :=
  mkEvent (some 30) (some "B") (some "2024-05-01T00:00:00") none none (some "Final")

def c9bad : EventData :=
  mkEvent none (some "B") (some "2024-05-02T00:00:00") none none (some "Final")

/-- C9 counterexample: a batch containing one record without the required
`EventId` field aborts the entire run with a `KeyError` — the other,
perfectly well-formed record is not reconciled and no state is produced,
contradicting "every other record in the batch is still reconciled". -/
theorem C9_counterexample :
    process_event_changes [c9good, c9bad] [] exDay0 =
      Except.error "KeyError: EventId" ∧
    c9good.eventId.isSome := ⟨by rfl, by rfl⟩

/-- A record whose date string does not parse. -/
def c9odd : EventData :=
  mkEvent (some 31) (some "B") (some "not a date") none none (some "Final")

theorem C9_witness :
    ∃ r, process_event_changes [c9good, c9odd] [] exDay0 = Except.ok r ∧
      (∀ e ∈ [c9good, c9odd], ∀ i, e.eventId = some i → (dbFind r.db i).isSome) ∧
      (∀ nA nD prs out,
        generate_output_for_webpage r.db nA nD prs exDay0 = Except.ok out →
        (∀ u ∈ out.upcoming_hearings, (get_event_datetime u.entry.event_data).isSome) ∧
        (∀ it ∈ out.updates_last_7_days, it.type = "new" →
          (get_event_datetime it.data.event_data).isSome) ∧
        (∀ it ∈ out.updates_last_30_days, it.type = "new" →
          (get_event_datetime it.data.event_data).isSome)) :=
  C9_malformed_date_isolated [c9good, c9odd] [] exDay0 (by decide) (by simp [dbWf])

/-! ## C5: entry-level helper lemmas -/

theorem check_significant_eq_false_iff {cur stored : EventData} :
    check_significant_event_data_change cur stored = false ↔
      (cur.eventDate = stored.eventDate ∧ cur.eventTime = stored.eventTime ∧
       cur.eventLocation = stored.eventLocation ∧ cur.eventBodyName = stored.eventBodyName ∧
       cur.eventAgendaStatusName = stored.eventAgendaStatusName ∧
       cur.eventComment = stored.eventComment) := by
  unfold check_significant_event_data_change
  simp [bne, and_assoc]

theorem check_significant_self (e : EventData) :
    check_significant_event_data_change e e = false := by
  simp [check_significant_eq_false_iff]

/-- After Pass 1 has processed a record, its stored counterpart compares as
unchanged against the same record, and a record marked `Deferred` never
leaves its entry in `active`. -/
def entryQuietPred (e : EventData) (ent : SeenEntry) : Prop :=
  check_significant_event_data_change e ent.event_data = false ∧
  (is_deferred_api e = true → ent.current_status ≠ "active")

theorem updateExistingEntry_post {now : Nat} {e : EventData} {entry : SeenEntry} :
    entryQuietPred e (updateExistingEntry now e entry).1 := by
  constructor
  · by_cases c1 : check_significant_event_data_change e entry.event_data = true
    · by_cases c2 : (is_deferred_api e && entry.current_status == "active") = true
      · simpa [updateExistingEntry, c1, c2] using check_significant_self e
      · by_cases c3 : (!is_deferred_api e && statusIsDeferred entry.current_status) = true <;>
          simpa [updateExistingEntry, c1, c2, c3] using check_significant_self e
    · have c1' : check_significant_event_data_change e entry.event_data = false := by
        simpa using c1
      by_cases c2 : (is_deferred_api e && entry.current_status == "active") = true
      · have hd : is_deferred_api e = true := by
          have hc := c2
          rw [Bool.and_eq_true] at hc
          exact hc.1
        have hstat : e.eventAgendaStatusName = some "Deferred" := by
          simpa [is_deferred_api] using hd
        rw [check_significant_eq_false_iff] at c1'
        simp [updateExistingEntry, c1, c2, check_significant_eq_false_iff, c1'.1, c1'.2.1,
          c1'.2.2.1, c1'.2.2.2.1, c1'.2.2.2.2.2, hstat]
      · simp [updateExistingEntry, c1, c2]
  · intro hd
    by_cases c1 : check_significant_event_data_change e entry.event_data = true
    · by_cases c2 : (is_deferred_api e && entry.current_status == "active") = true
      · simp [updateExistingEntry, c1, c2]
      · have c3 : (!is_deferred_api e && statusIsDeferred entry.current_status) = false := by
          simp [hd]
        have hne : entry.current_status ≠ "active" := by
          intro hact
          simp [hd, hact] at c2
        simp [updateExistingEntry, c1, c2, c3, hne]
    · by_cases c2 : (is_deferred_api e && entry.current_status == "active") = true
      · simp [updateExistingEntry, c1, c2]
      · have hne : entry.current_status ≠ "active" := by
          intro hact
          simp [hd, hact] at c2
        simp [updateExistingEntry, c1, c2, hne]

theorem updateExistingEntry_lp {now : Nat} {e : EventData} {entry : SeenEntry} :
    (updateExistingEntry now e entry).1.last_processed_timestamp = now := by
  by_cases c1 : check_significant_event_data_change e entry.event_data = true
  · by_cases c2 : (is_deferred_api e && entry.current_status == "active") = true
    · simp [updateExistingEntry, c1, c2]
    · by_cases c3 : (!is_deferred_api e && statusIsDeferred entry.current_status) = true <;>
        simp [updateExistingEntry, c1, c2, c3]
  · by_cases c2 : (is_deferred_api e && entry.current_status == "active") = true <;>
      simp [updateExistingEntry, c1, c2]

/-- The update a record receives on a pass that changes nothing significant. -/
def quietRefresh (now : Nat) (ent : SeenEntry) : SeenEntry :=
  { ent with
      last_seen_timestamp := now
      processing_tags := ([] : List String)
      last_processed_timestamp := now }

theorem updateExistingEntry_quiet {now : Nat} {e : EventData} {entry : SeenEntry}
    (hsig : check_significant_event_data_change e entry.event_data = false)
    (hst : is_deferred_api e = true → entry.current_status ≠ "active") :
    updateExistingEntry now e entry = (quietRefresh now entry, false) := by
  by_cases hd : is_deferred_api e = true
  · have hne : (entry.current_status == "active") = false := by
      simp [hst hd]
    simp [updateExistingEntry, quietRefresh, hsig, hd, hne]
  · have hd' : is_deferred_api e = false := by simpa using hd
    simp [updateExistingEntry, quietRefresh, hsig, hd']

theorem stateView_quietRefresh (now : Nat) (ent : SeenEntry) :
    stateView (quietRefresh now ent) = stateView ent := rfl

theorem entryQuietPred_markRescheduled (e : EventData) (n : Nat) (i : MatchInfo)
    (ent : SeenEntry) (hq : entryQuietPred e ent) :
    entryQuietPred e (markRescheduled n i ent) := by
  refine ⟨hq.1, fun _ => ?_⟩
  show "deferred_rescheduled_internal" ≠ "active"
  decide

theorem entryQuietPred_markRescheduleTarget (e : EventData) (i : OriginalInfo)
    (ent : SeenEntry) (hq : entryQuietPred e ent) :
    entryQuietPred e (markRescheduleTarget i ent) := ⟨hq.1, hq.2⟩

theorem entryQuietPred_pass3Entry (e : EventData) (processed : List Nat) (k : Nat)
    (ent : SeenEntry) (hq : entryQuietPred e ent) :
    entryQuietPred e (pass3Entry processed k ent) := by
  unfold pass3Entry
  split_ifs <;> exact ⟨hq.1, hq.2⟩

theorem entryQuietPred_quietRefresh (e : EventData) (now : Nat)
    (ent : SeenEntry) (hq : entryQuietPred e ent) :
    entryQuietPred e (quietRefresh now ent) := ⟨hq.1, hq.2⟩

/-! ## C5: Pass 1 lemmas for the rerun -/

theorem pass1Step_frame {now : Nat} {st stm : Pass1State} {e : EventData} {k : Nat}
    (h : pass1Step now st e = Except.ok stm)
    (hk : ∀ i, e.eventId = some i → i ≠ k) :
    dbFind stm.db k = dbFind st.db k := by
  unfold pass1Step at h
  cases hid : e.eventId with
  | none => simp only [hid] at h; exact Except.noConfusion h
  | some i =>
    have hik : i ≠ k := hk i hid
    simp only [hid] at h
    cases hfi : dbFind st.db i with
    | none =>
      simp only [hfi] at h
      have happ : ∀ v : SeenEntry, dbFind (st.db ++ [(i, v)]) k = dbFind st.db k := by
        intro v
        cases hfk : dbFind st.db k with
        | some w => exact dbFind_append_of_some _ hfk
        | none =>
          rw [dbFind_append_of_none _ hfk]
          simp [dbFind, hik]
      by_cases hd : is_deferred_api e = true
      · rw [if_pos hd] at h
        injection h with h
        rw [← h]
        exact happ _
      · rw [if_neg hd] at h
        injection h with h
        rw [← h]
        exact happ _
    | some entry0 =>
      simp only [hfi] at h
      injection h with h
      rw [← h]
      show dbFind (dbSet st.db i _) k = _
      rw [dbSet, dbFind_dbModify, if_neg (fun he => hik he.symm)]

theorem pass1_fold_frame {now : Nat} (batch : List EventData) {st st' : Pass1State} {k : Nat}
    (h : batch.foldlM (pass1Step now) st = Except.ok st')
    (hk : ∀ e ∈ batch, ∀ i, e.eventId = some i → i ≠ k) :
    dbFind st'.db k = dbFind st.db k := by
  induction batch generalizing st with
  | nil =>
    simp only [List.foldlM_nil] at h
    injection h with h
    rw [← h]
  | cons e rest ih =>
    rw [List.foldlM_cons, except_bind_ok] at h
    obtain ⟨stm, hstep, hrest⟩ := h
    have h1 := pass1Step_frame hstep (hk e (List.mem_cons_self e rest))
    have h2 := ih hrest (fun e' he' => hk e' (List.mem_cons_of_mem e he'))
    exact h2.trans h1

theorem pass1_fold_ids {now : Nat} (batch : List EventData) {st st' : Pass1State}
    (h : batch.foldlM (pass1Step now) st = Except.ok st') :
    ∀ e ∈ batch, e.eventId.isSome := by
  induction batch generalizing st with
  | nil => intro e he; simp at he
  | cons e0 rest ih =>
    rw [List.foldlM_cons, except_bind_ok] at h
    obtain ⟨stm, hstep, hrest⟩ := h
    intro e he
    rcases List.mem_cons.mp he with rfl | he
    · unfold pass1Step at hstep
      cases hid : e.eventId with
      | none => simp only [hid] at hstep; exact Except.noConfusion hstep
      | some i => simp [hid]
    · exact ih hrest e he

theorem pass1Step_establish {now : Nat} {st stm : Pass1State} {e : EventData} {k : Nat}
    (hid : e.eventId = some k)
    (h : pass1Step now st e = Except.ok stm) :
    ∃ ent, dbFind stm.db k = some ent ∧ entryQuietPred e ent := by
  unfold pass1Step at h
  simp only [hid] at h
  cases hfi : dbFind st.db k with
  | none =>
    simp only [hfi] at h
    have happ : ∀ v : SeenEntry, dbFind (st.db ++ [(k, v)]) k = some v := by
      intro v
      rw [dbFind_append_of_none _ hfi]
      simp [dbFind]
    by_cases hd : is_deferred_api e = true
    · rw [if_pos hd] at h
      injection h with h
      rw [← h]
      refine ⟨_, happ _, check_significant_self e, fun _ => ?_⟩
      show "deferred_pending_match" ≠ "active"
      decide
    · rw [if_neg hd] at h
      injection h with h
      rw [← h]
      exact ⟨_, happ _, check_significant_self e, fun hcon => absurd hcon (by simp [hd])⟩
  | some entry0 =>
    simp only [hfi] at h
    injection h with h
    rw [← h]
    refine ⟨(updateExistingEntry now e entry0).1, ?_, updateExistingEntry_post⟩
    show dbFind (dbSet st.db k _) k = _
    rw [dbSet, dbFind_dbModify, if_pos rfl, hfi]
    rfl

theorem pass1_establishes {now : Nat} (batch : List EventData) {st st' : Pass1State}
    (hBN : (batch.filterMap EventData.eventId).Nodup)
    (h : batch.foldlM (pass1Step now) st = Except.ok st') :
    ∀ e ∈ batch, ∀ k, e.eventId = some k →
      ∃ ent, dbFind st'.db k = some ent ∧ entryQuietPred e ent := by
  induction batch generalizing st with
  | nil => intro e he; simp at he
  | cons e0 rest ih =>
    rw [List.foldlM_cons, except_bind_ok] at h
    obtain ⟨stm, hstep, hrest⟩ := h
    intro e he k hid
    rcases List.mem_cons.mp he with rfl | he
    · obtain ⟨ent, hf, hq⟩ := pass1Step_establish hid hstep
      have hkn : k ∉ rest.filterMap EventData.eventId := by
        rw [List.filterMap_cons, hid] at hBN
        exact (List.nodup_cons.mp hBN).1
      have hframe : dbFind st'.db k = dbFind stm.db k := by
        refine pass1_fold_frame rest hrest ?_
        intro e' he' i hid' hik
        subst hik
        exact hkn (List.mem_filterMap.mpr ⟨e', he', hid'⟩)
      exact ⟨ent, hframe ▸ hf, hq⟩
    · have hBN' : (rest.filterMap EventData.eventId).Nodup := by
        rcases he0 : e0.eventId with _ | i0
        · rw [List.filterMap_cons, he0] at hBN
          exact hBN
        · rw [List.filterMap_cons, he0] at hBN
          exact (List.nodup_cons.mp hBN).2
      exact ih hBN' hrest e he k hid

theorem targetCond_quietRefresh (now2 now : Nat) (k : Nat) (ent : SeenEntry) :
    targetCond now2 (k, quietRefresh now ent) = false := by
  unfold targetCond quietRefresh
  simp

theorem pass1_rerun (now2 : Nat) (batch : List EventData) {st st' : Pass1State}
    (hL1 : ∀ e ∈ batch, ∀ k, e.eventId = some k →
      ∃ ent, dbFind st.db k = some ent ∧ entryQuietPred e ent)
    (hT : ∀ p ∈ st.db, targetCond now2 p = false)
    (h : batch.foldlM (pass1Step now2) st = Except.ok st') :
    st'.newlyAdded = st.newlyAdded ∧ st'.newlyDeferred = st.newlyDeferred ∧
    (∀ k, (dbFind st'.db k).map stateView = (dbFind st.db k).map stateView) ∧
    (∀ p ∈ st'.db, targetCond now2 p = false) := by
  induction batch generalizing st with
  | nil =>
    simp only [List.foldlM_nil] at h
    injection h with h
    rw [← h]
    exact ⟨rfl, rfl, fun _ => rfl, hT⟩
  | cons e0 rest ih =>
    rw [List.foldlM_cons, except_bind_ok] at h
    obtain ⟨stm, hstep, hrest⟩ := h
    have hid0 : ∃ k0, e0.eventId = some k0 := by
      unfold pass1Step at hstep
      cases hid : e0.eventId with
      | none => simp only [hid] at hstep; exact Except.noConfusion hstep
      | some i => exact ⟨i, rfl⟩
    obtain ⟨k0, hid0⟩ := hid0
    obtain ⟨ent0, hf0, hq0⟩ := hL1 e0 (List.mem_cons_self e0 rest) k0 hid0
    have hstep' : stm = { st with
        db := dbSet st.db k0 (quietRefresh now2 ent0)
        processed := st.processed ++ [k0] } := by
      unfold pass1Step at hstep
      simp only [hid0, hf0, updateExistingEntry_quiet hq0.1 hq0.2] at hstep
      injection hstep with hstep
      rw [← hstep]
      simp
    have hfind : ∀ k, dbFind stm.db k =
        if k = k0 then (dbFind st.db k).map (fun _ => quietRefresh now2 ent0)
        else dbFind st.db k := by
      intro k
      rw [hstep']
      show dbFind (dbSet st.db k0 _) k = _
      rw [dbSet, dbFind_dbModify]
    have hview : ∀ k, (dbFind stm.db k).map stateView = (dbFind st.db k).map stateView := by
      intro k
      rw [hfind k]
      by_cases hk : k = k0
      · subst hk
        rw [if_pos rfl, hf0]
        rfl
      · rw [if_neg hk]
    have hL1m : ∀ e ∈ rest, ∀ k, e.eventId = some k →
        ∃ ent, dbFind stm.db k = some ent ∧ entryQuietPred e ent := by
      intro e he k hid
      obtain ⟨ent, hf, hq⟩ := hL1 e (List.mem_cons_of_mem e0 he) k hid
      rw [hfind k]
      by_cases hk : k = k0
      · subst hk
        rw [if_pos rfl, hf0]
        have : ent = ent0 := by
          rw [hf0] at hf
          exact (Option.some.inj hf).symm
        subst this
        exact ⟨quietRefresh now2 ent, rfl, entryQuietPred_quietRefresh e now2 ent hq⟩
      · rw [if_neg hk]
        exact ⟨ent, hf, hq⟩
    have hTm : ∀ p ∈ stm.db, targetCond now2 p = false := by
      rw [hstep']
      show ∀ p ∈ dbSet st.db k0 _, _
      rw [dbSet, dbModify]
      intro p hp
      obtain ⟨q, hq, rfl⟩ := List.mem_map.mp hp
      by_cases hqk : (q.1 == k0) = true
      · simp only [hqk, if_true]
        exact targetCond_quietRefresh now2 now2 q.1 ent0
      · simp only [hqk]
        simpa using hT q hq
    obtain ⟨ha, hd, hv, ht'⟩ := ih hL1m hTm hrest
    have hsa : stm.newlyAdded = st.newlyAdded := by rw [hstep']
    have hsd : stm.newlyDeferred = st.newlyDeferred := by rw [hstep']
    exact ⟨ha.trans hsa, hd.trans hsd, fun k => (hv k).trans (hview k), ht'⟩

/-! ## C5: predicate transfer through the match loop and Pass 3 -/

theorem matchLoopStep_quiet {now : Nat} {targets : List (Nat × SeenEntry)}
    {st stm : MatchState} {d : Nat × SeenEntry} (e : EventData)
    (h : matchLoopStep now targets st d = Except.ok stm) {k : Nat} {ent : SeenEntry}
    (hk : dbFind st.db k = some ent) (hq : entryQuietPred e ent) :
    ∃ ent', dbFind stm.db k = some ent' ∧ entryQuietPred e ent' := by
  unfold matchLoopStep at h
  cases hid : d.2.event_data.eventId with
  | none => simp [expectId, hid] at h
  | some dId =>
    simp only [expectId, hid] at h
    cases hdt : get_event_datetime d.2.event_data with
    | none =>
      simp only [hdt] at h
      injection h with h
      rw [← h]
      exact ⟨ent, hk, hq⟩
    | some dDt =>
      simp only [hdt] at h
      cases hf : findMatch dId d.2.event_data dDt st.consumed targets with
      | error m => simp only [hf] at h; exact Except.noConfusion h
      | ok o =>
        simp only [hf] at h
        cases o with
        | none =>
          injection h with h
          rw [← h]
          exact ⟨ent, hk, hq⟩
        | some trip =>
          obtain ⟨tKey, tEntry, tId⟩ := trip
          injection h with h
          rw [← h]
          simp only [dbFind_dbModify]
          by_cases h2 : k = tKey
          · rw [if_pos h2]
            by_cases h1 : k = d.1
            · rw [if_pos h1, hk]
              exact ⟨_, rfl, entryQuietPred_markRescheduleTarget _ _ _
                (entryQuietPred_markRescheduled _ _ _ _ hq)⟩
            · rw [if_neg h1, hk]
              exact ⟨_, rfl, entryQuietPred_markRescheduleTarget _ _ _ hq⟩
          · rw [if_neg h2]
            by_cases h1 : k = d.1
            · rw [if_pos h1, hk]
              exact ⟨_, rfl, entryQuietPred_markRescheduled _ _ _ _ hq⟩
            · rw [if_neg h1, hk]
              exact ⟨ent, rfl, hq⟩

theorem matchLoop_quiet {now : Nat} {targets : List (Nat × SeenEntry)}
    (awaiting : List (Nat × SeenEntry)) {st st' : MatchState} (e : EventData)
    (h : matchLoop now targets awaiting st = Except.ok st') {k : Nat} {ent : SeenEntry}
    (hk : dbFind st.db k = some ent) (hq : entryQuietPred e ent) :
    ∃ ent', dbFind st'.db k = some ent' ∧ entryQuietPred e ent' := by
  induction awaiting generalizing st ent with
  | nil =>
    unfold matchLoop at h
    simp only [List.foldlM_nil] at h
    injection h with h
    rw [← h]
    exact ⟨ent, hk, hq⟩
  | cons d rest ih =>
    unfold matchLoop at h ih
    rw [List.foldlM_cons, except_bind_ok] at h
    obtain ⟨st1, hstep, hrest⟩ := h
    obtain ⟨ent1, hk1, hq1⟩ := matchLoopStep_quiet e hstep hk hq
    exact ih hrest hk1 hq1

theorem forall_mem_dbModify {P : Nat × SeenEntry → Prop} {db : DB} {k : Nat}
    {f : SeenEntry → SeenEntry}
    (h : ∀ p ∈ db, P p) (hf : ∀ k' v, P (k', v) → P (k', f v)) :
    ∀ p ∈ dbModify db k f, P p := by
  intro p hp
  rw [dbModify] at hp
  obtain ⟨q, hq, rfl⟩ := List.mem_map.mp hp
  by_cases hqk : (q.1 == k) = true
  · simp only [hqk, if_true]
    exact hf q.1 q.2 (h q hq)
  · simp only [hqk]
    simpa using h q hq

theorem pass1Step_lp {now : Nat} {st stm : Pass1State} {e : EventData}
    (h : pass1Step now st e = Except.ok stm)
    (hlp : ∀ p ∈ st.db, p.2.last_processed_timestamp ≤ now) :
    ∀ p ∈ stm.db, p.2.last_processed_timestamp ≤ now := by
  unfold pass1Step at h
  cases hid : e.eventId with
  | none => simp only [hid] at h; exact Except.noConfusion h
  | some i =>
    simp only [hid] at h
    cases hfi : dbFind st.db i with
    | none =>
      simp only [hfi] at h
      have happ : ∀ v : SeenEntry, v.last_processed_timestamp = now →
          ∀ p ∈ st.db ++ [(i, v)], p.2.last_processed_timestamp ≤ now := by
        intro v hv p hp
        rcases List.mem_append.mp hp with hp | hp
        · exact hlp p hp
        · simp at hp
          subst hp
          simp [hv]
      by_cases hd : is_deferred_api e = true
      · rw [if_pos hd] at h
        injection h with h
        rw [← h]
        exact happ _ rfl
      · rw [if_neg hd] at h
        injection h with h
        rw [← h]
        exact happ _ rfl
    | some entry0 =>
      simp only [hfi] at h
      injection h with h
      rw [← h]
      show ∀ p ∈ dbSet st.db i _, p.2.last_processed_timestamp ≤ now
      rw [dbSet]
      refine forall_mem_dbModify hlp ?_
      intro k' v _
      show (updateExistingEntry now e entry0).1.last_processed_timestamp ≤ now
      rw [updateExistingEntry_lp]

theorem pass1_fold_lp {now : Nat} (batch : List EventData) {st st' : Pass1State}
    (h : batch.foldlM (pass1Step now) st = Except.ok st')
    (hlp : ∀ p ∈ st.db, p.2.last_processed_timestamp ≤ now) :
    ∀ p ∈ st'.db, p.2.last_processed_timestamp ≤ now := by
  induction batch generalizing st with
  | nil =>
    simp only [List.foldlM_nil] at h
    injection h with h
    rw [← h]
    exact hlp
  | cons e rest ih =>
    rw [List.foldlM_cons, except_bind_ok] at h
    obtain ⟨stm, hstep, hrest⟩ := h
    exact ih hrest (pass1Step_lp hstep hlp)

theorem matchLoopStep_lp {now bound : Nat} {targets : List (Nat × SeenEntry)}
    {st stm : MatchState} {d : Nat × SeenEntry}
    (h : matchLoopStep now targets st d = Except.ok stm)
    (hlp : ∀ p ∈ st.db, p.2.last_processed_timestamp ≤ bound) :
    ∀ p ∈ stm.db, p.2.last_processed_timestamp ≤ bound := by
  unfold matchLoopStep at h
  cases hid : d.2.event_data.eventId with
  | none => simp [expectId, hid] at h
  | some dId =>
    simp only [expectId, hid] at h
    cases hdt : get_event_datetime d.2.event_data with
    | none =>
      simp only [hdt] at h
      injection h with h
      rw [← h]
      exact hlp
    | some dDt =>
      simp only [hdt] at h
      cases hf : findMatch dId d.2.event_data dDt st.consumed targets with
      | error m => simp only [hf] at h; exact Except.noConfusion h
      | ok o =>
        simp only [hf] at h
        cases o with
        | none =>
          injection h with h
          rw [← h]
          exact hlp
        | some trip =>
          obtain ⟨tKey, tEntry, tId⟩ := trip
          injection h with h
          rw [← h]
          refine forall_mem_dbModify (forall_mem_dbModify hlp ?_) ?_
          · intro k' v hv
            exact hv
          · intro k' v hv
            exact hv

theorem matchLoop_lp {now bound : Nat} {targets : List (Nat × SeenEntry)}
    (awaiting : List (Nat × SeenEntry)) {st st' : MatchState}
    (h : matchLoop now targets awaiting st = Except.ok st')
    (hlp : ∀ p ∈ st.db, p.2.last_processed_timestamp ≤ bound) :
    ∀ p ∈ st'.db, p.2.last_processed_timestamp ≤ bound := by
  induction awaiting generalizing st with
  | nil =>
    unfold matchLoop at h
    simp only [List.foldlM_nil] at h
    injection h with h
    rw [← h]
    exact hlp
  | cons d rest ih =>
    unfold matchLoop at h ih
    rw [List.foldlM_cons, except_bind_ok] at h
    obtain ⟨st1, hstep, hrest⟩ := h
    exact ih hrest (matchLoopStep_lp hstep hlp)

theorem pass3_lp {bound : Nat} {db : DB} {processed : List Nat}
    (hlp : ∀ p ∈ db, p.2.last_processed_timestamp ≤ bound) :
    ∀ p ∈ pass3 db processed, p.2.last_processed_timestamp ≤ bound := by
  intro p hp
  obtain ⟨q, hq, rfl⟩ := List.mem_map.mp hp
  have := hlp q hq
  show (pass3Entry processed q.1 q.2).last_processed_timestamp ≤ bound
  unfold pass3Entry
  split_ifs <;> exact this

theorem targetCond_false_of_lp {now : Nat} {p : Nat × SeenEntry}
    (h : p.2.last_processed_timestamp ≠ now) : targetCond now p = false := by
  unfold targetCond
  by_cases hs : p.2.current_status = "active"
  · have h1 : (p.2.last_processed_timestamp == now) = false := by simp [h]
    have h2 : (p.2.current_status == "deferred_pending_match") = false := by
      rw [hs]; decide
    simp [h1, h2]
  · have h3 : (p.2.current_status == "active") = false := by simp [hs]
    simp [h3]

theorem filter_eq_nil_of_false {p : Nat × SeenEntry → Bool}
    (l : List (Nat × SeenEntry)) (h : ∀ a ∈ l, p a = false) : l.filter p = [] := by
  induction l with
  | nil => rfl
  | cons a rest ih =>
    rw [List.filter_cons]
    simp only [h a (List.mem_cons_self a rest)]
    exact ih (fun b hb => h b (List.mem_cons_of_mem a hb))

theorem matchLoopStep_no_targets {now : Nat} {st : MatchState} {d : Nat × SeenEntry}
    (hid : d.2.event_data.eventId.isSome) :
    matchLoopStep now [] st d = Except.ok st := by
  obtain ⟨i, hi⟩ := Option.isSome_iff_exists.mp hid
  unfold matchLoopStep
  simp only [expectId, hi]
  cases get_event_datetime d.2.event_data with
  | none => rfl
  | some dDt => rfl

theorem matchLoop_no_targets (now : Nat) (awaiting : List (Nat × SeenEntry))
    (st : MatchState) (ha : ∀ d ∈ awaiting, d.2.event_data.eventId.isSome) :
    matchLoop now [] awaiting st = Except.ok st := by
  induction awaiting generalizing st with
  | nil => unfold matchLoop; simp [List.foldlM_nil]; rfl
  | cons d rest ih =>
    unfold matchLoop at ih ⊢
    rw [List.foldlM_cons, matchLoopStep_no_targets (ha d (List.mem_cons_self d rest))]
    simpa [Bind.bind, Except.bind] using ih st (fun d' hd' => ha d' (List.mem_cons_of_mem d hd'))

/-! ## C5 -/

/-- C5: reconciling the same raw batch twice in a row is idempotent. Given a
well-formed state whose entries were all last processed no later than the
first run, distinct event ids in the batch and a strictly later second run,
the second reconciliation succeeds, its newly-added, newly-deferred and
newly-rescheduled outputs are all empty, and no entry's lifecycle status,
`last_alert_type` or `last_alert_timestamp` changes. -/
theorem C5_idempotence (batch : List EventData) (db : DB) (now1 now2 : Nat)
    (r1 : ProcessResult)
    (hwf : dbWf db)
    (hBN : (batch.filterMap EventData.eventId).Nodup)
    (hlp : ∀ p ∈ db, p.2.last_processed_timestamp ≤ now1)
    (hlt : now1 < now2)
    (h1 : process_event_changes batch db now1 = Except.ok r1) :
    ∃ r2, process_event_changes batch r1.db now2 = Except.ok r2 ∧
      r2.newlyAdded = [] ∧ r2.newlyDeferred = [] ∧ r2.newlyRescheduled = [] ∧
      ∀ k, (dbFind r2.db k).map stateView = (dbFind r1.db k).map stateView := by
  obtain ⟨st1, st2, h1p, h1m, h1r⟩ := process_inversion h1
  unfold pass1 at h1p
  have hb : ∀ e ∈ batch, e.eventId.isSome := pass1_fold_ids batch h1p
  have hwf1 : dbWf st1.db := pass1_fold_wf batch h1p hwf
  have hwf2 : dbWf st2.db := matchLoop_wf _ h1m hwf1
  have hdbr1 : r1.db = pass3 st2.db st1.processed := by rw [h1r]
  have hwfr1 : dbWf r1.db := by rw [hdbr1]; exact pass3_wf hwf2
  have hlp1 : ∀ p ∈ st1.db, p.2.last_processed_timestamp ≤ now1 :=
    pass1_fold_lp batch h1p hlp
  have hlp2 : ∀ p ∈ st2.db, p.2.last_processed_timestamp ≤ now1 :=
    matchLoop_lp _ h1m hlp1
  have hlpr1 : ∀ p ∈ r1.db, p.2.last_processed_timestamp ≤ now1 := by
    rw [hdbr1]; exact pass3_lp hlp2
  have hT : ∀ p ∈ r1.db, targetCond now2 p = false := fun p hp =>
    targetCond_false_of_lp (Nat.ne_of_lt (Nat.lt_of_le_of_lt (hlpr1 p hp) hlt))
  have hL1 : ∀ e ∈ batch, ∀ k, e.eventId = some k →
      ∃ ent, dbFind r1.db k = some ent ∧ entryQuietPred e ent := by
    intro e he k hid
    obtain ⟨ent, hf, hq⟩ := pass1_establishes batch hBN h1p e he k hid
    obtain ⟨ent2, hf2, hq2⟩ := matchLoop_quiet _ e h1m hf hq
    refine ⟨pass3Entry st1.processed k ent2, ?_, entryQuietPred_pass3Entry e _ k _ hq2⟩
    rw [hdbr1, dbFind_pass3, hf2]
    rfl
  obtain ⟨st1', h2p⟩ := pass1_fold_ok batch
    { db := r1.db, processed := [], newlyAdded := [], newlyDeferred := [] } hb
  obtain ⟨hA2, hD2, hV2, hT2⟩ := pass1_rerun now2 batch hL1 hT h2p
  have hwf1' : dbWf st1'.db := pass1_fold_wf batch h2p hwfr1
  have hfilT : st1'.db.filter (targetCond now2) = [] := filter_eq_nil_of_false _ hT2
  have ha' : ∀ d ∈ st1'.db.filter (awaitingCond now2), d.2.event_data.eventId.isSome := by
    intro d hd
    have := hwf1' d (List.mem_filter.mp hd).1
    simp [this]
  have hml : matchLoop now2 (sortTargets (classifyForMatching now2 st1'.db).targets)
      (classifyForMatching now2 st1'.db).awaiting
      { db := st1'.db, consumed := [], pairs := [] } =
      Except.ok { db := st1'.db, consumed := [], pairs := [] } := by
    simp only [classify_eq_filter, hfilT]
    exact matchLoop_no_targets now2 _ _ ha'
  refine ⟨{ db := pass3 st1'.db st1'.processed
            newlyAdded := st1'.newlyAdded
            newlyDeferred := st1'.newlyDeferred
            newlyRescheduled := [] }, ?_, hA2, hD2, rfl, ?_⟩
  · unfold process_event_changes
    rw [show pass1 batch r1.db now2 = Except.ok st1' from h2p]
    simp only []
    simp only [hml]
  · intro k
    have hp3 : (dbFind (pass3 st1'.db st1'.processed) k).map stateView
        = (dbFind st1'.db k).map stateView := by
      rw [dbFind_pass3]
      cases dbFind st1'.db k with
      | none => rfl
      | some e2 => simp [stateView_pass3Entry]
    exact hp3.trans (hV2 k)

def c5e : EventData := mkEvent (some 501) (some "Board") none none none none

def c5batch : List EventData := [c5e]

def c5r1 : ProcessResult :=
  { db := [(501, { init_seen_event_entry c5e 100 with processing_tags := ["newly_added"] })]
    newlyAdded := [501]
    newlyDeferred := []
    newlyRescheduled := [] }

/-- Witness for C5: a concrete one-event batch reconciled at time 100 from an
empty state and re-reconciled at time 200 — the second run yields no new
outputs and no state-view change. -/
theorem C5_witness :
    ∃ r2, process_event_changes c5batch c5r1.db 200 = Except.ok r2 ∧
      r2.newlyAdded = [] ∧ r2.newlyDeferred = [] ∧ r2.newlyRescheduled = [] ∧
      ∀ k, (dbFind r2.db k).map stateView = (dbFind c5r1.db k).map stateView :=
  C5_idempotence c5batch [] 100 200 c5r1
    (by intro p hp; cases hp)
    (by decide)
    (by intro p hp; cases hp)
    (by decide)
    (by rfl)

end Legistar
